import Mathlib

/-!
# Lock-free ring buffer (`lockfree-ring-buffer/ring_buffer.h`)

A shallow embedding of the class template `RingBuffer<n_buffers, buf_size>`.

* Part 1 embeds the member functions `advance_head`, `Write` and `Read` as
  functions on an explicit ring state, for calls that run one after another.
* Part 2 embeds the same member functions as a step machine in which every
  atomic operation of a call is one step of a thread, so that calls of several
  threads can be interleaved.
* Part 3 states and proves the properties, first of the member functions of
  Part 1, then of the interleaved calls of Part 2; `Write_call_alone` and
  `Read_call_alone` relate the two parts.

The function `main` of `playground/check-file/check-file.cpp` is embedded in the
namespace `CheckFile`, its definitions after Part 2 and its properties at the
end.

Integer types: `unsigned int` is taken to be 32 bits wide, `unsigned long long`
and `size_t` 64 bits wide.  The members the header misspells (`seq_num` for
`sequence_num`, `num_writeops` for `num_write_ops`) are read as the member that
`Buf` declares.
-/

namespace RingBuffer

/-! ## Part 1: the ring and its member functions -/

/-- One `uint8_t`. -/
abbrev Byte := Fin 256

/-- Number of values of an `unsigned int`. -/
def UINT_RANGE : Nat := 2 ^ 32

/-- Number of values of an `unsigned long long` and of a `size_t`. -/
def ULL_RANGE : Nat := 2 ^ 64

/-- The struct `Buf`: one slot of the ring. -/
structure Buf where
  data : List Byte
  sequence_num : Nat
  write_active : Bool
  num_write_ops : Nat
  num_readers : Nat
deriving DecidableEq

/-- The constructor `Buf()`.  It initialises every member but `data`, whose
bytes are whatever the storage held: they are the argument `bytes`. -/
def Buf.init (bytes : List Byte) : Buf :=
  { data := bytes, sequence_num := 0, write_active := false,
    num_write_ops := 0, num_readers := 0 }

end RingBuffer

/-- The state of one `RingBuffer<n_buffers, buf_size>` object. -/
structure RingBuffer where
  n_buffers : Nat
  buf_size : Nat
  m_circular_buffer : Nat → RingBuffer.Buf
  m_head : Nat
  m_seq_num : Nat

namespace RingBuffer

/-- The type `write_callback`: from the bytes of the buffer on entry and its
size to the bytes of the buffer on exit and the returned `int`. -/
abbrev write_callback := List Byte → Nat → List Byte × Int

/-- The type `read_callback`: from the bytes, the size and the sequence number
to the returned `int`. -/
abbrev read_callback := List Byte → Nat → Nat → Int

/-- The implicitly defined constructor: every slot is `Buf()`, `m_head = {0}`,
`m_seq_num = {0}`.  No argument is checked. -/
def construct (n_buffers buf_size : Nat) (bytes : Nat → List Byte) : RingBuffer :=
  { n_buffers := n_buffers, buf_size := buf_size,
    m_circular_buffer := fun i => Buf.init (bytes i),
    m_head := 0, m_seq_num := 0 }

/-- The call `m_circular_buffer.at(i)`: `none` stands for `std::out_of_range`. -/
def slot_at (r : RingBuffer) (i : Nat) : Option Buf :=
  if i < r.n_buffers then some (r.m_circular_buffer i) else none

/-- Replace slot `i` of the ring. -/
def set_slot (r : RingBuffer) (i : Nat) (b : Buf) : RingBuffer :=
  { r with m_circular_buffer := fun j => if j = i then b else r.m_circular_buffer j }

/-- The expression `n_buffers - 1`, computed in `size_t`. -/
def last_index (n_buffers : Nat) : Nat :=
  if n_buffers = 0 then ULL_RANGE - 1 else n_buffers - 1

/-- The value `advance_head` computes for `next_head` from `current_head`. -/
def next_head (n_buffers current_head : Nat) : Nat :=
  if current_head = last_index n_buffers then 0 else (current_head + 1) % UINT_RANGE

/-- The member function `advance_head`, when no other thread touches `m_head`
between its load and its compare-exchange: the returned index and the ring. -/
def advance_head (r : RingBuffer) : Nat × RingBuffer :=
  let current_head := r.m_head
  let next := next_head r.n_buffers current_head
  (next, { r with m_head := next })

/-- `buf.write_active.store(v)` on slot `i`. -/
def store_write_active (r : RingBuffer) (i : Nat) (v : Bool) : RingBuffer :=
  set_slot r i { r.m_circular_buffer i with write_active := v }

/-- `buf.num_write_ops++` on slot `i`. -/
def incr_num_write_ops (r : RingBuffer) (i : Nat) : RingBuffer :=
  set_slot r i { r.m_circular_buffer i with
    num_write_ops := ((r.m_circular_buffer i).num_write_ops + 1) % UINT_RANGE }

/-- The bytes of slot `i` become `bytes`. -/
def store_data (r : RingBuffer) (i : Nat) (bytes : List Byte) : RingBuffer :=
  set_slot r i { r.m_circular_buffer i with data := bytes }

/-- `buf.sequence_num.store(s)` on slot `i`. -/
def store_sequence_num (r : RingBuffer) (i : Nat) (s : Nat) : RingBuffer :=
  set_slot r i { r.m_circular_buffer i with sequence_num := s }

/-- `buf.num_readers++` on slot `i`. -/
def incr_num_readers (r : RingBuffer) (i : Nat) : RingBuffer :=
  set_slot r i { r.m_circular_buffer i with
    num_readers := ((r.m_circular_buffer i).num_readers + 1) % UINT_RANGE }

/-- `buf.num_readers--` on slot `i`. -/
def decr_num_readers (r : RingBuffer) (i : Nat) : RingBuffer :=
  set_slot r i { r.m_circular_buffer i with
    num_readers := ((r.m_circular_buffer i).num_readers + UINT_RANGE - 1) % UINT_RANGE }

/-- What one call of `Write` leaves behind: the returned `int`, the ring, and
the values of the locals `sequence_num` and `write_index`. -/
structure WriteResult where
  retval : Int
  ring : RingBuffer
  sequence_num : Nat
  write_index : Nat

/-- The member function `Write`, run with no other thread on the ring.
`none` stands for the exception of `at`. -/
def Write (write : write_callback) (r : RingBuffer) : Option WriteResult :=
  let sequence_num := r.m_seq_num
  let r1 := { r with m_seq_num := (r.m_seq_num + 1) % ULL_RANGE }
  let (write_index, r2) := advance_head r1
  match slot_at r2 write_index with
  | none => none
  | some _ =>
    let r3 := store_write_active r2 write_index true
    let r4 := incr_num_write_ops r3 write_index
    let filled := write (r4.m_circular_buffer write_index).data r4.buf_size
    let r5 := store_data r4 write_index filled.1
    let retval := filled.2
    let r6 := store_sequence_num r5 write_index sequence_num
    let r7 := incr_num_write_ops r6 write_index
    let r8 := store_write_active r7 write_index false
    some { retval := retval, ring := r8, sequence_num := sequence_num,
           write_index := write_index }

/-- The index `Read` computes from the cursor: `head - 1`, or `n_buffers - 1`
when the cursor is 0, stored in an `unsigned int`. -/
def read_index_of (n_buffers head : Nat) : Nat :=
  (if head = 0 then last_index n_buffers else head - 1) % UINT_RANGE

/-- What one call of `Read` leaves behind: the returned `int`, the value
assigned to `corrupt`, the ring, the values of the locals, and the bytes and
sequence number that were passed to the callback. -/
structure ReadResult where
  retval : Int
  corrupt : Bool
  ring : RingBuffer
  read_index : Nat
  write_at_start : Bool
  ops_at_start : Nat
  ops_at_end : Nat
  write_at_end : Bool
  seen_data : List Byte
  seen_seq : Nat

/-- The member function `Read`, run with no other thread on the ring.
`none` stands for the exception of `at`. -/
def Read (read : read_callback) (r : RingBuffer) : Option ReadResult :=
  let head := r.m_head
  let read_index := read_index_of r.n_buffers head
  match slot_at r read_index with
  | none => none
  | some _ =>
    let write_at_start := (r.m_circular_buffer read_index).write_active
    let ops_at_start := (r.m_circular_buffer read_index).num_write_ops
    let r1 := incr_num_readers r read_index
    let seen_data := (r1.m_circular_buffer read_index).data
    let seen_seq := (r1.m_circular_buffer read_index).sequence_num
    let retval := read seen_data r1.buf_size seen_seq
    let r2 := decr_num_readers r1 read_index
    let ops_at_end := (r2.m_circular_buffer read_index).num_write_ops
    let write_at_end := (r2.m_circular_buffer read_index).write_active
    let corrupt := write_at_start || write_at_end || (ops_at_start != ops_at_end)
    some { retval := retval, corrupt := corrupt, ring := r2, read_index := read_index,
           write_at_start := write_at_start, ops_at_start := ops_at_start,
           ops_at_end := ops_at_end, write_at_end := write_at_end,
           seen_data := seen_data, seen_seq := seen_seq }

/-- Run `Write` once per callback of the list, in order, and collect the result
of every call.  `none` when one of the calls throws. -/
def write_calls : List write_callback → RingBuffer → Option (List WriteResult × RingBuffer)
  | [], r => some ([], r)
  | w :: ws, r =>
    match Write w r with
    | none => none
    | some out =>
      match write_calls ws out.ring with
      | none => none
      | some (outs, r') => some (out :: outs, r')

/-- `M` calls of `advance_head` one after another: the indices they return, in
order, and the ring. -/
def advance_head_calls : Nat → RingBuffer → List Nat × RingBuffer
  | 0, r => ([], r)
  | M + 1, r =>
    let first := advance_head r
    let rest := advance_head_calls M first.2
    (first.1 :: rest.1, rest.2)

/-- Run `Read` once per callback of the list, in order, and collect the result
of every call.  `none` when one of the calls throws. -/
def read_calls : List read_callback → RingBuffer → Option (List ReadResult × RingBuffer)
  | [], r => some ([], r)
  | rd :: rds, r =>
    match Read rd r with
    | none => none
    | some res =>
      match read_calls rds res.ring with
      | none => none
      | some (ress, r') => some (res :: ress, r')

/-- The callback of a writer that fills the buffer with `bytes` and returns `ret`. -/
def fill_with (bytes : List Byte) (ret : Int) : write_callback :=
  fun _ _ => (bytes, ret)

/-- The ring `Write` leaves behind when `at` does not throw, in closed form. -/
def Write_ring (write : write_callback) (r : RingBuffer) : RingBuffer :=
  let i := next_head r.n_buffers r.m_head
  let b := r.m_circular_buffer i
  { n_buffers := r.n_buffers, buf_size := r.buf_size,
    m_circular_buffer := fun j =>
      if j = i then
        { data := (write b.data r.buf_size).1, sequence_num := r.m_seq_num,
          write_active := false,
          num_write_ops := ((b.num_write_ops + 1) % UINT_RANGE + 1) % UINT_RANGE,
          num_readers := b.num_readers }
      else r.m_circular_buffer j,
    m_head := i, m_seq_num := (r.m_seq_num + 1) % ULL_RANGE }

/-- What `Write` leaves behind when `at` does not throw, in closed form. -/
def Write_result (write : write_callback) (r : RingBuffer) : WriteResult :=
  { retval := (write (r.m_circular_buffer (next_head r.n_buffers r.m_head)).data r.buf_size).2,
    ring := Write_ring write r, sequence_num := r.m_seq_num,
    write_index := next_head r.n_buffers r.m_head }

/-- What `Read` leaves behind on a ring on which no write is marked and no
reader is counted, in closed form. -/
def Read_result (read : read_callback) (r : RingBuffer) : ReadResult :=
  let i := read_index_of r.n_buffers r.m_head
  let b := r.m_circular_buffer i
  { retval := read b.data r.buf_size b.sequence_num,
    corrupt := false, ring := r,
    read_index := i, write_at_start := false, ops_at_start := b.num_write_ops,
    ops_at_end := b.num_write_ops, write_at_end := false,
    seen_data := b.data, seen_seq := b.sequence_num }

/-- The bytes a call of `Write` left in the slot it wrote. -/
def WriteResult.payload (out : WriteResult) : List Byte :=
  (out.ring.m_circular_buffer out.write_index).data

/-- No write is marked and no reader is counted on any slot, and the cursor is
inside the ring: the state between calls. -/
def Quiet (r : RingBuffer) : Prop :=
  r.m_head < r.n_buffers ∧
    ∀ i, (r.m_circular_buffer i).write_active = false ∧ (r.m_circular_buffer i).num_readers = 0

/-! ## Part 2: interleaved calls

Every atomic operation of `Write` and `Read` is one step of the thread that
runs the call.  The callbacks are the byte-wise copies the header is written
for: the write callback stores its payload into the buffer one byte per step
and returns, the read callback loads the buffer one byte per step and returns.
`compare_exchange_weak` is taken not to fail spuriously. -/

/-- The next operation of a thread that runs `Write`. -/
inductive WritePc where
  /-- About to run `m_seq_num++`. -/
  | take_seq
  /-- About to run `m_head.load()`. -/
  | load_head
  /-- About to run `m_head.compare_exchange_weak(current_head, next_head)` and, when it
  succeeds, to look the slot up. -/
  | cas_head
  /-- About to run `write_active.store(true)`. -/
  | set_active
  /-- About to run the first `num_write_ops++`. -/
  | count_begin
  /-- Inside the callback, about to store byte `j` (or to return). -/
  | fill (j : Nat)
  /-- About to store the sequence number into the slot. -/
  | store_seq
  /-- About to run the second `num_write_ops++`. -/
  | count_end
  /-- About to run `write_active.store(false)` and return. -/
  | clear_active
  /-- The call has returned. -/
  | done
  /-- The call has left `at` with an exception. -/
  | thrown
deriving DecidableEq

/-- The locals of a thread that runs `Write`; `payload` and `ret` are what its
callback stores and returns. -/
structure Writer where
  pc : WritePc
  payload : List Byte
  ret : Int
  sequence_num : Nat
  current_head : Nat
  write_index : Nat
  retval : Int
deriving DecidableEq

/-- The next operation of a thread that runs `Read`. -/
inductive ReadPc where
  /-- About to run `m_head.load()` and look the slot up. -/
  | load_head
  /-- About to load `write_active` into `write_at_start`. -/
  | load_active_start
  /-- About to load `num_write_ops` into `ops_at_start`. -/
  | load_ops_start
  /-- About to run `num_readers++`. -/
  | incr_readers
  /-- About to load the sequence number passed to the callback. -/
  | load_seq
  /-- Inside the callback, about to load byte `j` (or to return). -/
  | copy (j : Nat)
  /-- About to run `num_readers--`. -/
  | decr_readers
  /-- About to load `num_write_ops` into `ops_at_end`. -/
  | load_ops_end
  /-- About to load `write_active` into `write_at_end`, assign `corrupt` and return. -/
  | load_active_end
  /-- The call has returned. -/
  | done
  /-- The call has left `at` with an exception. -/
  | thrown
deriving DecidableEq

/-- The locals of a thread that runs `Read`; `copied` is what its callback has
loaded so far and `ret` what it returns. -/
structure Reader where
  pc : ReadPc
  ret : Int
  read_index : Nat
  write_at_start : Bool
  ops_at_start : Nat
  seen_seq : Nat
  copied : List Byte
  ops_at_end : Nat
  write_at_end : Bool
  corrupt : Bool
  retval : Int
deriving DecidableEq

/-- A thread runs one call. -/
inductive Thread where
  | writer (w : Writer)
  | reader (rd : Reader)
deriving DecidableEq

/-- A call that has not started: `Write` with a callback that stores `payload`
and returns `ret`, or `Read` with a callback that returns `ret`. -/
inductive Call where
  | write (payload : List Byte) (ret : Int)
  | read (ret : Int)

/-- The thread that is about to run the call. -/
def Call.thread : Call → Thread
  | .write payload ret =>
    .writer { pc := .take_seq, payload := payload, ret := ret, sequence_num := 0,
              current_head := 0, write_index := 0, retval := 0 }
  | .read ret =>
    .reader { pc := .load_head, ret := ret, read_index := 0, write_at_start := false,
              ops_at_start := 0, seen_seq := 0, copied := [], ops_at_end := 0,
              write_at_end := false, corrupt := false, retval := 0 }

/-- One atomic operation of a thread that runs `Write`.  A compare-exchange that
fails reloads `current_head` and is tried again; one that succeeds is followed,
in the same step, by the bounds check of `at`, which touches no shared state. -/
def Writer.step (r : RingBuffer) (w : Writer) : RingBuffer × Writer :=
  match w.pc with
  | .take_seq =>
    ({ r with m_seq_num := (r.m_seq_num + 1) % ULL_RANGE },
     { w with sequence_num := r.m_seq_num, pc := .load_head })
  | .load_head => (r, { w with current_head := r.m_head, pc := .cas_head })
  | .cas_head =>
    let next := next_head r.n_buffers w.current_head
    if r.m_head = w.current_head then
      ({ r with m_head := next },
       { w with write_index := next,
                pc := if next < r.n_buffers then .set_active else .thrown })
    else (r, { w with current_head := r.m_head })
  | .set_active => (store_write_active r w.write_index true, { w with pc := .count_begin })
  | .count_begin => (incr_num_write_ops r w.write_index, { w with pc := .fill 0 })
  | .fill j =>
    if j < r.buf_size then
      (store_data r w.write_index
         ((r.m_circular_buffer w.write_index).data.set j (w.payload.getD j 0)),
       { w with pc := .fill (j + 1) })
    else (r, { w with retval := w.ret, pc := .store_seq })
  | .store_seq => (store_sequence_num r w.write_index w.sequence_num, { w with pc := .count_end })
  | .count_end => (incr_num_write_ops r w.write_index, { w with pc := .clear_active })
  | .clear_active => (store_write_active r w.write_index false, { w with pc := .done })
  | .done => (r, w)
  | .thrown => (r, w)

/-- One atomic operation of a thread that runs `Read`.  The load of the cursor is
followed, in the same step, by the bounds check of `at`. -/
def Reader.step (r : RingBuffer) (rd : Reader) : RingBuffer × Reader :=
  match rd.pc with
  | .load_head =>
    let read_index := read_index_of r.n_buffers r.m_head
    (r, { rd with read_index := read_index,
                  pc := if read_index < r.n_buffers then .load_active_start else .thrown })
  | .load_active_start =>
    (r, { rd with write_at_start := (r.m_circular_buffer rd.read_index).write_active,
                  pc := .load_ops_start })
  | .load_ops_start =>
    (r, { rd with ops_at_start := (r.m_circular_buffer rd.read_index).num_write_ops,
                  pc := .incr_readers })
  | .incr_readers => (incr_num_readers r rd.read_index, { rd with pc := .load_seq })
  | .load_seq =>
    (r, { rd with seen_seq := (r.m_circular_buffer rd.read_index).sequence_num,
                  pc := .copy 0 })
  | .copy j =>
    if j < r.buf_size then
      (r, { rd with copied := rd.copied ++ [(r.m_circular_buffer rd.read_index).data.getD j 0],
                    pc := .copy (j + 1) })
    else (r, { rd with retval := rd.ret, pc := .decr_readers })
  | .decr_readers => (decr_num_readers r rd.read_index, { rd with pc := .load_ops_end })
  | .load_ops_end =>
    (r, { rd with ops_at_end := (r.m_circular_buffer rd.read_index).num_write_ops,
                  pc := .load_active_end })
  | .load_active_end =>
    let write_at_end := (r.m_circular_buffer rd.read_index).write_active
    (r, { rd with write_at_end := write_at_end,
                  corrupt := rd.write_at_start || write_at_end
                             || (rd.ops_at_start != rd.ops_at_end),
                  pc := .done })
  | .done => (r, rd)
  | .thrown => (r, rd)

/-- How far a thread that runs `Read` has come: the operations of `Read` in
program order (all bytes of the callback count as one stage). -/
def ReadPc.stage : ReadPc → Nat
  | .load_head => 0
  | .load_active_start => 1
  | .load_ops_start => 2
  | .incr_readers => 3
  | .load_seq => 4
  | .copy _ => 5
  | .decr_readers => 6
  | .load_ops_end => 7
  | .load_active_end => 8
  | .done => 9
  | .thrown => 9

/-- The ring together with the `n_threads` threads `0, ..., n_threads - 1`. -/
structure Config where
  ring : RingBuffer
  n_threads : Nat
  threads : Nat → Thread

/-- Thread `i` performs its next atomic operation. -/
def Config.step (c : Config) (i : Nat) : Config :=
  if i < c.n_threads then
    match c.threads i with
    | .writer w =>
      let next := Writer.step c.ring w
      { c with ring := next.1, threads := fun j => if j = i then .writer next.2 else c.threads j }
    | .reader rd =>
      let next := Reader.step c.ring rd
      { c with ring := next.1, threads := fun j => if j = i then .reader next.2 else c.threads j }
  else c

/-- The threads take steps in the order the schedule lists them. -/
def Config.run (c : Config) : List Nat → Config
  | [] => c
  | i :: rest => (c.step i).run rest

/-- The thread runs `k` steps in a row with no step of another thread in between. -/
def Writer.steps : Nat → RingBuffer × Writer → RingBuffer × Writer
  | 0, s => s
  | k + 1, s => Writer.steps k (Writer.step s.1 s.2)

/-- The thread runs `k` steps in a row with no step of another thread in between. -/
def Reader.steps : Nat → RingBuffer × Reader → RingBuffer × Reader
  | 0, s => s
  | k + 1, s => Reader.steps k (Reader.step s.1 s.2)

/-- A freshly constructed ring and `n_threads` calls that have not started. -/
def Config.start (n_buffers buf_size : Nat) (bytes : Nat → List Byte)
    (n_threads : Nat) (calls : Nat → Call) : Config :=
  { ring := construct n_buffers buf_size bytes, n_threads := n_threads,
    threads := fun i => (calls i).thread }

/-- The thread has been given a slot by `advance_head` and its call has not
returned: its next operation is one of those `Write` performs on the slot. -/
def Writer.holding (w : Writer) : Bool :=
  match w.pc with
  | .set_active | .count_begin | .fill _ | .store_seq | .count_end | .clear_active => true
  | _ => false

/-- The thread runs `Write` and has been given slot `s` by `advance_head`, and
its call has not returned. -/
def Thread.writes_into (t : Thread) (s : Nat) : Bool :=
  match t with
  | .writer w => w.holding && w.write_index == s
  | .reader _ => false

/-- The thread is inside the write callback of a `Write` into slot `s`. -/
def Thread.in_write_callback (t : Thread) (s : Nat) : Bool :=
  match t with
  | .writer w => w.write_index == s && (match w.pc with | .fill _ => true | _ => false)
  | .reader _ => false

/-- No two threads are running a `Write` into the same slot. -/
def Config.exclusive (c : Config) : Prop :=
  ∀ i < c.n_threads, ∀ j < c.n_threads, i ≠ j →
    ∀ s < c.ring.n_buffers,
      ¬ ((c.threads i).writes_into s = true ∧ (c.threads j).writes_into s = true)

/-- Along the whole schedule, no two threads are ever running a `Write` into
the same slot. -/
def Config.exclusive_along (c : Config) : List Nat → Prop
  | [] => c.exclusive
  | i :: rest => c.exclusive ∧ (c.step i).exclusive_along rest

instance Config.exclusive_decidable (c : Config) : Decidable c.exclusive := by
  unfold Config.exclusive
  infer_instance

/-- Whether no two writes into one slot overlap along a schedule can be computed. -/
def Config.exclusive_along_decidable :
    (c : Config) → (sched : List Nat) → Decidable (c.exclusive_along sched)
  | c, [] => Config.exclusive_decidable c
  | c, i :: rest =>
    @instDecidableAnd _ _ (Config.exclusive_decidable c)
      (Config.exclusive_along_decidable (c.step i) rest)

instance (c : Config) (sched : List Nat) : Decidable (c.exclusive_along sched) :=
  Config.exclusive_along_decidable c sched

/-- Two threads that each run `Write` on a fresh ring of 2 slots of 2 bytes. -/
def two_writers : Config :=
  Config.start 2 2 (fun _ => [0, 0]) 2 (fun i => .write [if i = 0 then 1 else 2, 3] 0)

/-- The ring of `two_writers` when both threads have marked their slot and are
inside their write callback: the cursor is 0, thread 0 is paused on slot 1 and
thread 1 on slot 0. -/
def both_writers_paused : RingBuffer :=
  (two_writers.run [0, 0, 0, 0, 0, 1, 1, 1, 1, 1]).ring

/-- A ring of `2^32 + 1` slots whose cursor stands at `2^32 - 1`, the largest
value of an `unsigned int`. -/
def wide_ring : RingBuffer :=
  { construct 4294967297 1 (fun _ => [0]) with m_head := 4294967295 }

/-- A ring of 3 slots whose cursor stands at 2. -/
def small_ring : RingBuffer :=
  { construct 3 4 (fun _ => [0, 0, 0, 0]) with m_head := 2 }

/-- The calls of the torn-read example: threads 0, 1 and 2 run `Write` with
payloads `[1, 2]`, `[3, 4]` and `[5, 6]`, thread 3 runs `Read`. -/
def torn_read_calls : Nat → Call
  | 0 => .write [1, 2] 0
  | 1 => .write [3, 4] 0
  | 2 => .write [5, 6] 0
  | _ => .read 0

/-- A fresh ring of 2 slots of 2 bytes with the calls of `torn_read_calls`. -/
def torn_read_start : Config :=
  Config.start 2 2 (fun _ => [0, 0]) 4 torn_read_calls

/-- The first two `Write` calls run to completion, one after the other: `[1, 2]`
is published in slot 1 with sequence number 0, `[3, 4]` in slot 0 with sequence
number 1, and the cursor is back at 0. -/
def torn_read_history : List Nat :=
  List.replicate 11 0 ++ List.replicate 11 1

/-- The third `Write` interleaved with the `Read`, both on slot 1. -/
def torn_read_overlap : List Nat :=
  [3,              -- Read: loads the cursor (0) and targets slot 1
   3,              -- Read: write_at_start = false
   2, 2, 2,        -- Write: takes sequence number 2, advances the cursor to 1
   2,              -- Write: write_active.store(true)
   2,              -- Write: num_write_ops++ (now 3)
   3,              -- Read: ops_at_start = 3
   2,              -- Write callback: stores byte 0 (5)
   3, 3,           -- Read: num_readers++, loads sequence number 0
   3, 3, 3,        -- Read callback: copies bytes 0 and 1, returns
   3,              -- Read: num_readers--
   3,              -- Read: ops_at_end = 3
   2, 2,           -- Write callback: stores byte 1 (6), returns
   2, 2, 2,        -- Write: stores the sequence number, num_write_ops++, write_active.store(false)
   3]              -- Read: write_at_end = false, corrupt = false

/-- The whole schedule of the torn-read example. -/
def torn_read_schedule : List Nat :=
  torn_read_history ++ torn_read_overlap

/-- The third `Write` interleaved with the `Read`, both on slot 1, with each
callback run in one piece: the whole read callback runs after the whole write
callback and before the `Write` stores its sequence number. -/
def stale_read_overlap : List Nat :=
  [3,              -- Read: loads the cursor (0) and targets slot 1
   3,              -- Read: write_at_start = false
   2, 2, 2,        -- Write: takes sequence number 2, advances the cursor to 1
   2,              -- Write: write_active.store(true)
   2,              -- Write: num_write_ops++ (now 3)
   3,              -- Read: ops_at_start = 3
   2, 2, 2,        -- Write callback: stores bytes 0 and 1, returns
   3, 3,           -- Read: num_readers++, loads sequence number 0
   3, 3, 3,        -- Read callback: copies bytes 0 and 1, returns
   3,              -- Read: num_readers--
   3,              -- Read: ops_at_end = 3
   2, 2, 2,        -- Write: stores the sequence number, num_write_ops++, write_active.store(false)
   3]              -- Read: write_at_end = false, corrupt = false

/-- The whole schedule of the stale-read example. -/
def stale_read_schedule : List Nat :=
  torn_read_history ++ stale_read_overlap

/-- A `Read` of slot 1 that takes its start snapshots, is overtaken by the whole
third `Write` (of `[5, 6]`, into slot 1), and then runs to its end. -/
def lapped_read_overlap : List Nat :=
  [3,              -- Read: loads the cursor (0) and targets slot 1
   3,              -- Read: write_at_start = false
   3]              -- Read: ops_at_start = 2
  ++ List.replicate 11 2   -- Write: the whole call; num_write_ops of slot 1 becomes 4
  ++ List.replicate 8 3    -- Read: the callback, ops_at_end = 4, write_at_end = false

/-- The whole schedule of the lapped-read example. -/
def lapped_read_schedule : List Nat :=
  torn_read_history ++ lapped_read_overlap

/-- One call on the ring: `Write` or `Read`, with its callback. -/
inductive Op where
  | write (w : write_callback)
  | read (rd : read_callback)

/-- What one call leaves behind. -/
inductive OpResult where
  | wrote (out : WriteResult)
  | was_read (res : ReadResult)

/-- The index the call passed to `m_circular_buffer.at()`. -/
def OpResult.index : OpResult → Nat
  | .wrote out => out.write_index
  | .was_read res => res.read_index

/-- The ring the call left. -/
def OpResult.ring : OpResult → RingBuffer
  | .wrote out => out.ring
  | .was_read res => res.ring

/-- Run one call.  `none` stands for the exception of `at`. -/
def run_op (op : Op) (r : RingBuffer) : Option OpResult :=
  match op with
  | .write w => (Write w r).map OpResult.wrote
  | .read rd => (Read rd r).map OpResult.was_read

/-- Run the calls of the list one after another and collect what each leaves
behind.  `none` when one of the calls throws. -/
def run_ops : List Op → RingBuffer → Option (List OpResult × RingBuffer)
  | [], r => some ([], r)
  | op :: ops, r =>
    match run_op op r with
    | none => none
    | some res =>
      match run_ops ops res.ring with
      | none => none
      | some (ress, r') => some (res :: ress, r')

/-- The thread has left `at` with an exception. -/
def Thread.has_thrown (t : Thread) : Bool :=
  match t with
  | .writer w => decide (w.pc = .thrown)
  | .reader rd => decide (rd.pc = .thrown)

/-- The index the thread passes to `at`, once it has computed it: the
`write_index` of a writer that holds a slot, the `read_index` of a reader that
has loaded the cursor. -/
def Thread.at_index (t : Thread) : Option Nat :=
  match t with
  | .writer w => if w.holding then some w.write_index else none
  | .reader rd =>
    match rd.pc with
    | .load_head => none
    | .thrown => none
    | _ => some rd.read_index

/-- The cursor is inside the ring, no thread has left `at` with an exception,
and every index a thread has computed for `at` is inside the ring. -/
def Config.in_range (c : Config) : Prop :=
  c.ring.m_head < c.ring.n_buffers ∧
    ∀ i < c.n_threads, (c.threads i).has_thrown = false ∧
      ∀ k, (c.threads i).at_index = some k → k < c.ring.n_buffers

end RingBuffer

/-! ## The file-status tool (`playground/check-file/check-file.cpp`) -/

namespace CheckFile

/-- The enumeration `std::filesystem::file_type`; `other` stands for every
implementation-defined value. -/
inductive file_type where
  | none
  | not_found
  | regular
  | directory
  | symlink
  | block
  | character
  | fifo
  | socket
  | unknown
  | other
deriving DecidableEq

/-- The characters of a path with a backslash put before each double quote and
each backslash. -/
def escaped : List Char → List Char
  | [] => []
  | c :: cs => if c = '"' ∨ c = '\\' then '\\' :: c :: escaped cs else c :: escaped cs

/-- What `std::cout << p` writes for a path: the path between double quotes,
each double quote and each backslash of the path preceded by a backslash. -/
def quoted (p : String) : String :=
  "\"" ++ String.mk (escaped p.data) ++ "\""

/-- The text `check_status` writes after the path, per file type. -/
def status_text : file_type → String
  | .none => " has `not-evaluated-yet` type"
  | .not_found => " does not exist"
  | .regular => " is a regular file"
  | .directory => " is a directory"
  | .symlink => " is a symlink"
  | .block => " is a block device"
  | .character => " is a character device"
  | .fifo => " is a named IPC pipe"
  | .socket => " is a named IPC socket"
  | .unknown => " has `unknown` type"
  | .other => " has `implementation-defined` type"

/-- The function `check_status`: the text it writes to standard output. -/
def check_status (p : String) (s : file_type) : String :=
  quoted p ++ status_text s ++ "\n"

/-- The macro `EXIT_SUCCESS`. -/
def EXIT_SUCCESS : Int := 0

/-- What a run of `main` leaves behind: the returned `int`, the text written to
standard output, and the calls of `check_status` it made, each with its path
and file status. -/
structure MainResult where
  retval : Int
  out : String
  check_status_calls : List (String × file_type)
deriving DecidableEq

/-- The end of `main`, from the test `argc > 3` on, with the value `file_name`
has at that point.  `status` stands for `fs::status` on the file system the
program runs on: `none` stands for the `filesystem_error` it throws on an
error of the operating system other than a missing file.  `main` does not catch
it, so the result `none` of `main_tail` stands for a run that ends by that
exception, before `check_status` is called and without `main` returning. -/
def main_tail (status : String → Option file_type) (argc : Int) (file_name : String) :
    Option MainResult :=
  if argc > 3 then
    some { retval := -1, out := "Error. Too many arguments\n", check_status_calls := [] }
  else
    match status file_name with
    | none => none
    | some s =>
      some { retval := EXIT_SUCCESS, out := check_status file_name s,
             check_status_calls := [(file_name, s)] }

/-- The function `main`.  `status` stands for `fs::status` (`none` when it
throws), `argv i` for `argv[i]`; `file_name` starts as the empty string.  The
result is `none` when `main` is left by the exception of `fs::status`. -/
def main (status : String → Option file_type) (argc : Int) (argv : Nat → String) :
    Option MainResult :=
  if argc > 1 ∧ argc < 3 then
    main_tail status argc (argv 1)
  else if argc < 2 then
    some { retval := -1, out := "Error. Too little arguments\n", check_status_calls := [] }
  else
    main_tail status argc ""

/-- A file system on which `/tmp` is a directory, every other name of at most
255 characters is missing, and `fs::status` throws on a longer name (the
operating system refuses it as too long). -/
def small_fs (p : String) : Option file_type :=
  if 255 < p.length then none else if p = "/tmp" then some .directory else some .not_found

/-- A name of 300 letters. -/
def long_name : String :=
  String.mk (List.replicate 300 'a')

end CheckFile

namespace RingBuffer

/-! ## Part 3: properties of the member functions -/

set_option maxRecDepth 100000

theorem last_index_pos {N : Nat} (hN : 0 < N) : last_index N = N - 1 := by
  unfold last_index
  rw [if_neg (Nat.pos_iff_ne_zero.mp hN)]

theorem next_head_lt {N h : Nat} (hh : h < N) : next_head N h < N := by
  unfold next_head
  rw [last_index_pos (Nat.zero_lt_of_lt hh)]
  split
  · exact Nat.zero_lt_of_lt hh
  · rename_i hne
    have h1 : h + 1 < N := by omega
    exact lt_of_le_of_lt (Nat.mod_le _ _) h1

theorem next_head_eq_mod {N h : Nat} (hh : h < N) (hN : N ≤ UINT_RANGE) :
    next_head N h = (h + 1) % N := by
  unfold next_head
  rw [last_index_pos (Nat.zero_lt_of_lt hh)]
  split
  · rename_i he
    have : h + 1 = N := by omega
    rw [this, Nat.mod_self]
  · rename_i hne
    have h1 : h + 1 < N := by omega
    rw [Nat.mod_eq_of_lt (lt_of_lt_of_le h1 hN), Nat.mod_eq_of_lt h1]

theorem next_head_ne {N h : Nat} (hN : 2 ≤ N) (hh : h < N) : next_head N h ≠ h := by
  unfold next_head
  rw [last_index_pos (by omega)]
  split
  · omega
  · rename_i hne
    have h1 : h + 1 < N := by omega
    intro he
    have hR : UINT_RANGE = 4294967296 := by norm_num [UINT_RANGE]
    rw [hR] at he
    omega

theorem read_index_lt {N h : Nat} (hh : h < N) : read_index_of N h < N := by
  unfold read_index_of
  rw [last_index_pos (Nat.zero_lt_of_lt hh)]
  refine lt_of_le_of_lt (Nat.mod_le _ _) ?_
  split <;> omega

theorem read_index_next_head {N h : Nat} (hh : h < N) (hN : N ≤ UINT_RANGE) :
    read_index_of N (next_head N h) = h := by
  unfold read_index_of next_head
  rw [last_index_pos (Nat.zero_lt_of_lt hh)]
  by_cases he : h = N - 1
  · rw [if_pos he, if_pos rfl, ← he]
    exact Nat.mod_eq_of_lt (by omega)
  · have h1 : h + 1 < N := by omega
    have h2 : h + 1 < UINT_RANGE := by omega
    rw [if_neg he, Nat.mod_eq_of_lt h2, if_neg (by omega)]
    exact Nat.mod_eq_of_lt (by omega)

theorem Write_eq (w : write_callback) (r : RingBuffer) (h : r.m_head < r.n_buffers) :
    Write w r = some (Write_result w r) := by
  have h' := next_head_lt h
  simp only [Write, advance_head, slot_at, h', if_true, store_write_active, incr_num_write_ops,
    store_data, store_sequence_num, set_slot, Write_ring, Write_result]
  simp
  funext j
  split <;> simp_all

theorem Read_eq (rd : read_callback) (r : RingBuffer) (h : r.m_head < r.n_buffers) :
    Read rd r = some
      (let i := read_index_of r.n_buffers r.m_head
       let b := r.m_circular_buffer i
       { retval := rd b.data r.buf_size b.sequence_num,
         corrupt := b.write_active,
         ring := decr_num_readers (incr_num_readers r i) i,
         read_index := i, write_at_start := b.write_active, ops_at_start := b.num_write_ops,
         ops_at_end := b.num_write_ops, write_at_end := b.write_active,
         seen_data := b.data, seen_seq := b.sequence_num }) := by
  have h' := read_index_lt h
  simp only [Read, slot_at, h', if_true]
  simp [incr_num_readers, decr_num_readers, set_slot]

theorem construct_quiet {N : Nat} (hN : 0 < N) (S : Nat) (bytes : Nat → List Byte) :
    Quiet (construct N S bytes) :=
  ⟨hN, fun _ => ⟨rfl, rfl⟩⟩

theorem Write_ring_quiet (w : write_callback) {r : RingBuffer} (h : Quiet r) :
    Quiet (Write_ring w r) := by
  refine ⟨next_head_lt h.1, fun i => ?_⟩
  simp only [Write_ring]
  split
  · exact ⟨rfl, (h.2 _).2⟩
  · exact h.2 i

theorem uint_range_eq : UINT_RANGE = 4294967296 := by norm_num [UINT_RANGE]

theorem ull_range_eq : ULL_RANGE = 18446744073709551616 := by norm_num [ULL_RANGE]

theorem readers_round_trip (r : RingBuffer) (i : Nat)
    (h : (r.m_circular_buffer i).num_readers = 0) :
    decr_num_readers (incr_num_readers r i) i = r := by
  cases r with
  | mk n s slots head seq =>
    simp only [decr_num_readers, incr_num_readers, set_slot] at h ⊢
    congr 1
    funext j
    by_cases hj : j = i
    · subst hj
      rcases hb : slots j with ⟨d, sq, wa, ops, nr⟩
      rw [hb] at h
      simp only at h
      subst h
      simp only [if_true, hb, uint_range_eq]
    · simp [hj]

theorem Read_quiet (rd : read_callback) {r : RingBuffer} (h : Quiet r) :
    Read rd r = some (Read_result rd r) := by
  rw [Read_eq rd r h.1]
  simp only [Read_result, readers_round_trip r _ (h.2 _).2, (h.2 _).1]

theorem write_calls_append (ws vs : List write_callback) (r : RingBuffer) :
    write_calls (ws ++ vs) r =
      match write_calls ws r with
      | none => none
      | some (outs, r1) =>
        match write_calls vs r1 with
        | none => none
        | some (outs', r2) => some (outs ++ outs', r2) := by
  induction ws generalizing r with
  | nil =>
    simp only [List.nil_append, write_calls]
    cases write_calls vs r with
    | none => rfl
    | some p => rfl
  | cons w ws ih =>
    simp only [List.cons_append, write_calls]
    cases hW : Write w r with
    | none => rfl
    | some out =>
      simp only []
      rw [show ws.append vs = ws ++ vs from rfl, ih]
      cases write_calls ws out.ring with
      | none => rfl
      | some p =>
        simp only []
        cases write_calls vs p.2 with
        | none => rfl
        | some q => rfl

theorem write_calls_quiet (ws : List write_callback) {r : RingBuffer} (h : Quiet r)
    (hs : r.m_seq_num < ULL_RANGE) :
    ∃ outs r', write_calls ws r = some (outs, r') ∧ outs.length = ws.length ∧ Quiet r' ∧
      r'.n_buffers = r.n_buffers ∧ r'.buf_size = r.buf_size ∧
      r'.m_seq_num = (r.m_seq_num + ws.length) % ULL_RANGE := by
  induction ws generalizing r with
  | nil => exact ⟨[], r, rfl, rfl, h, rfl, rfl, (Nat.mod_eq_of_lt hs).symm⟩
  | cons w ws ih =>
    have hq := Write_ring_quiet w h
    have hs' : (Write_ring w r).m_seq_num < ULL_RANGE :=
      Nat.mod_lt _ (by norm_num [ULL_RANGE])
    obtain ⟨outs, r', h1, h2, h3, h4, h5, h6⟩ := ih hq hs'
    refine ⟨Write_result w r :: outs, r', ?_, ?_, h3, h4, h5, ?_⟩
    · have h1' : write_calls ws (Write_result w r).ring = some (outs, r') := h1
      simp only [write_calls, Write_eq w r h.1, h1']
    · simp [h2]
    · rw [h6]
      simp only [Write_ring, List.length_cons]
      rw [Nat.add_mod, Nat.mod_mod, ← Nat.add_mod]
      congr 1
      omega

theorem write_calls_snoc (ws : List write_callback) (w : write_callback) (r : RingBuffer)
    {outs : List WriteResult} {r1 : RingBuffer} (h : write_calls ws r = some (outs, r1))
    (h1 : r1.m_head < r1.n_buffers) :
    write_calls (ws ++ [w]) r = some (outs ++ [Write_result w r1], (Write_result w r1).ring) := by
  rw [write_calls_append, h]
  simp only [write_calls, Write_eq w r1 h1]

/-- C1, as amended: on a fresh ring of `N` slots, `2 ≤ N ≤ 2^32`, after two or
more complete `Write` calls `Read` reports `corrupt = false` and hands its
callback the payload bytes and the sequence number of the `Write` before the
last one (the sequence number is the number of calls that preceded that
`Write`); after exactly one `Write` it hands the callback the bytes slot 0 was
constructed with and sequence number 0. -/
theorem Read_after_Writes_delivers_previous (N S : Nat) (bytes : Nat → List Byte)
    (hN : 2 ≤ N) (hR : N ≤ UINT_RANGE) (ws : List write_callback)
    (w_prev w_last : write_callback) (rd : read_callback) :
    (∃ outs o_prev o_last r res,
      write_calls (ws ++ [w_prev, w_last]) (construct N S bytes)
        = some (outs ++ [o_prev, o_last], r) ∧
      outs.length = ws.length ∧
      Read rd r = some res ∧ res.corrupt = false ∧
      res.seen_data = o_prev.payload ∧ res.seen_seq = o_prev.sequence_num ∧
      o_prev.sequence_num = ws.length % ULL_RANGE ∧
      res.retval = rd o_prev.payload S o_prev.sequence_num) ∧
    (∃ o_last r res,
      write_calls [w_last] (construct N S bytes) = some ([o_last], r) ∧
      Read rd r = some res ∧ res.corrupt = false ∧
      res.read_index = 0 ∧ res.seen_data = bytes 0 ∧ res.seen_seq = 0) := by
  have hq0 : Quiet (construct N S bytes) := construct_quiet (by omega) S bytes
  have hs0 : (construct N S bytes).m_seq_num < ULL_RANGE := by
    norm_num [construct, ULL_RANGE]
  constructor
  · obtain ⟨outs, r1, h1, h2, h3, h4, h5, h6⟩ := write_calls_quiet ws hq0 hs0
    have hN1 : r1.n_buffers = N := h4
    have hS1 : r1.buf_size = S := h5
    have hq2 : Quiet (Write_ring w_prev r1) := Write_ring_quiet w_prev h3
    have hq3 : Quiet (Write_ring w_last (Write_ring w_prev r1)) := Write_ring_quiet w_last hq2
    have hlt : next_head N r1.m_head < N := by
      have := next_head_lt h3.1
      rwa [hN1] at this
    have hidx : read_index_of N (next_head N (next_head N r1.m_head)) = next_head N r1.m_head :=
      read_index_next_head hlt hR
    have hne : next_head N (next_head N r1.m_head) ≠ next_head N r1.m_head :=
      next_head_ne hN hlt
    have e1 := write_calls_snoc ws w_prev _ h1 h3.1
    have e2 := write_calls_snoc (ws ++ [w_prev]) w_last _ e1 hq2.1
    refine ⟨outs, Write_result w_prev r1, Write_result w_last (Write_result w_prev r1).ring,
      _, _, ?_, h2, Read_quiet rd hq3, rfl, ?_, ?_, ?_, ?_⟩
    · rw [List.append_assoc] at e2
      simpa using e2
    · simp only [Read_result, Write_result, Write_ring, WriteResult.payload, hN1, hidx,
        if_neg hne.symm, if_true]
    · simp only [Read_result, Write_result, Write_ring, hN1, hidx, if_neg hne.symm, if_true]
    · simp only [Write_result]
      rw [h6]
      simp [construct]
    · simp only [Read_result, Write_result, Write_ring, WriteResult.payload, hN1, hS1, hidx,
        if_neg hne.symm, if_true]
  · have hq1 : Quiet (Write_ring w_last (construct N S bytes)) := Write_ring_quiet w_last hq0
    have h10 : next_head N 0 = 1 := by
      rw [next_head_eq_mod (by omega) hR]
      exact Nat.mod_eq_of_lt (by omega)
    have hidx : read_index_of N 1 = 0 := by
      have := read_index_next_head (show 0 < N by omega) hR
      rwa [h10] at this
    refine ⟨Write_result w_last (construct N S bytes), _, _, ?_, Read_quiet rd hq1, rfl,
      ?_, ?_, ?_⟩
    · simp only [write_calls, Write_eq w_last _ hq0.1]
      rfl
    · simp only [Read_result, Write_ring, construct, h10, hidx]
    · simp only [Read_result, Write_ring, construct, h10, hidx]
      simp [Buf.init]
    · simp only [Read_result, Write_ring, construct, h10, hidx]
      simp [Buf.init]

/-- Witness of `Read_after_Writes_delivers_previous`: the ring of 3 slots of 4
bytes on which `[1,2,3,4]` and then `[5,6,7,8]` are written. -/
theorem Read_after_Writes_delivers_previous_witness :
    2 ≤ 3 ∧ 3 ≤ UINT_RANGE ∧
    ((∃ outs o_prev o_last r res,
      write_calls ([] ++ [fill_with [1, 2, 3, 4] 0, fill_with [5, 6, 7, 8] 0])
          (construct 3 4 (fun _ => [0, 0, 0, 0]))
        = some (outs ++ [o_prev, o_last], r) ∧
      outs.length = ([] : List write_callback).length ∧
      Read (fun _ _ _ => 0) r = some res ∧ res.corrupt = false ∧
      res.seen_data = o_prev.payload ∧ res.seen_seq = o_prev.sequence_num ∧
      o_prev.sequence_num = ([] : List write_callback).length % ULL_RANGE ∧
      res.retval = (fun _ _ _ => 0 : read_callback) o_prev.payload 4 o_prev.sequence_num) ∧
    (∃ o_last r res,
      write_calls [fill_with [5, 6, 7, 8] 0] (construct 3 4 (fun _ => [0, 0, 0, 0]))
        = some ([o_last], r) ∧
      Read (fun _ _ _ => 0) r = some res ∧ res.corrupt = false ∧
      res.read_index = 0 ∧ res.seen_data = [0, 0, 0, 0] ∧ res.seen_seq = 0)) :=
  ⟨by decide, by norm_num [UINT_RANGE],
   Read_after_Writes_delivers_previous 3 4 (fun _ => [0, 0, 0, 0]) (by decide)
     (by norm_num [UINT_RANGE]) [] (fill_with [1, 2, 3, 4] 0) (fill_with [5, 6, 7, 8] 0)
     (fun _ _ _ => 0)⟩

/-- C1 fails as stated.  On a ring of 3 slots of 4 bytes: after `Write` of
`[1,2,3,4]` the following `Read` hands its callback the bytes slot 0 was
constructed with (here zeros), not `[1,2,3,4]`; after a second `Write`, of
`[5,6,7,8]`, `Read` hands its callback `[1,2,3,4]` with sequence number 0, not
`[5,6,7,8]` with sequence number 1. -/
theorem Read_after_Writes_not_latest :
    ((write_calls [fill_with [1, 2, 3, 4] 0] (construct 3 4 (fun _ => [0, 0, 0, 0]))).bind
        (fun p => (Read (fun _ _ _ => 0) p.2).map
          (fun res => (res.corrupt, res.read_index, res.seen_data, res.seen_seq)))
      = some (false, 0, [0, 0, 0, 0], 0)) ∧
    ((write_calls [fill_with [1, 2, 3, 4] 0, fill_with [5, 6, 7, 8] 0]
          (construct 3 4 (fun _ => [0, 0, 0, 0]))).bind
        (fun p => (Read (fun _ _ _ => 0) p.2).map
          (fun res => (res.corrupt, res.read_index, res.seen_data, res.seen_seq)))
      = some (false, 1, [1, 2, 3, 4], 0)) ∧
    ((write_calls [fill_with [1, 2, 3, 4] 0, fill_with [5, 6, 7, 8] 0]
          (construct 3 4 (fun _ => [0, 0, 0, 0]))).bind
        (fun p => (Read (fun _ _ _ => 0) p.2).map (fun res => (res.seen_data, res.seen_seq)))
      ≠ some ([5, 6, 7, 8], 1)) := by
  decide

theorem write_calls_sequence (ws : List write_callback) {r : RingBuffer} (h : Quiet r)
    (hs : r.m_seq_num < ULL_RANGE) {outs : List WriteResult} {r' : RingBuffer}
    (hw : write_calls ws r = some (outs, r')) (i : Nat) (o : WriteResult)
    (ho : outs[i]? = some o) :
    o.sequence_num = (r.m_seq_num + i) % ULL_RANGE ∧
      (o.ring.m_circular_buffer o.write_index).sequence_num = (r.m_seq_num + i) % ULL_RANGE := by
  induction ws generalizing r outs i with
  | nil =>
    simp only [write_calls, Option.some.injEq, Prod.mk.injEq] at hw
    rw [← hw.1] at ho
    simp at ho
  | cons w ws ih =>
    have hq := Write_ring_quiet w h
    have hs' : (Write_ring w r).m_seq_num < ULL_RANGE :=
      Nat.mod_lt _ (by norm_num [ULL_RANGE])
    obtain ⟨outs', r'', h1, -⟩ := write_calls_quiet ws hq hs'
    have h1' : write_calls ws (Write_result w r).ring = some (outs', r'') := h1
    simp only [write_calls, Write_eq w r h.1, h1', Option.some.injEq, Prod.mk.injEq] at hw
    rw [← hw.1] at ho
    cases i with
    | zero =>
      simp only [List.getElem?_cons_zero, Option.some.injEq] at ho
      subst ho
      simp only [Write_result, Write_ring, if_true, Nat.add_zero, Nat.mod_eq_of_lt hs, and_self]
    | succ k =>
      simp only [List.getElem?_cons_succ] at ho
      rw [hw.2] at h1
      have := ih hq hs' h1 k ho
      have e : ((Write_ring w r).m_seq_num + k) % ULL_RANGE
          = (r.m_seq_num + (k + 1)) % ULL_RANGE := by
        simp only [Write_ring]
        rw [Nat.add_mod, Nat.mod_mod, ← Nat.add_mod]
        congr 1
        omega
      rw [e] at this
      exact this

/-- C4: for every list of `Write` calls on a freshly constructed ring (of at
least one slot), call number `i` (from 0) is assigned sequence number
`i mod 2^64` and leaves it stored in the slot it wrote; hence when fewer than
`2^64` calls are made, a later call has a strictly larger sequence number than
an earlier one (so the numbers are pairwise distinct), whatever the callbacks
do or return. -/
theorem Write_sequence_numbers (N S : Nat) (bytes : Nat → List Byte) (hN : 0 < N)
    (ws : List write_callback) :
    ∃ outs r, write_calls ws (construct N S bytes) = some (outs, r) ∧
      outs.length = ws.length ∧
      (∀ i o, outs[i]? = some o →
        o.sequence_num = i % ULL_RANGE ∧
        (o.ring.m_circular_buffer o.write_index).sequence_num = i % ULL_RANGE) ∧
      (ws.length < ULL_RANGE → ∀ (i j : Nat) (oi oj : WriteResult),
        outs[i]? = some oi → outs[j]? = some oj →
        i < j → oi.sequence_num < oj.sequence_num) := by
  have hq0 : Quiet (construct N S bytes) := construct_quiet hN S bytes
  have hs0 : (construct N S bytes).m_seq_num < ULL_RANGE := by
    norm_num [construct, ULL_RANGE]
  obtain ⟨outs, r, h1, h2, -⟩ := write_calls_quiet ws hq0 hs0
  have key : ∀ i o, outs[i]? = some o →
      o.sequence_num = i % ULL_RANGE ∧
      (o.ring.m_circular_buffer o.write_index).sequence_num = i % ULL_RANGE := by
    intro i o ho
    have := write_calls_sequence ws hq0 hs0 h1 i o ho
    simpa [construct] using this
  refine ⟨outs, r, h1, h2, key, ?_⟩
  intro hlen i j oi oj hi hj hij
  have hj' : j < outs.length := by
    rcases List.getElem?_eq_some_iff.mp hj with ⟨hlt, -⟩
    exact hlt
  rw [(key i oi hi).1, (key j oj hj).1, Nat.mod_eq_of_lt (by omega), Nat.mod_eq_of_lt (by omega)]
  exact hij

/-- Witness of `Write_sequence_numbers`: three calls on a ring of 2 slots. -/
theorem Write_sequence_numbers_witness :
    0 < 2 ∧
    ∃ outs r, write_calls [fill_with [1] 0, fill_with [2] (-1), fill_with [3] 5]
        (construct 2 1 (fun _ => [0])) = some (outs, r) ∧
      outs.length = [fill_with [1] 0, fill_with [2] (-1), fill_with [3] 5].length ∧
      (∀ i o, outs[i]? = some o →
        o.sequence_num = i % ULL_RANGE ∧
        (o.ring.m_circular_buffer o.write_index).sequence_num = i % ULL_RANGE) ∧
      ([fill_with [1] 0, fill_with [2] (-1), fill_with [3] 5].length < ULL_RANGE →
        ∀ (i j : Nat) (oi oj : WriteResult), outs[i]? = some oi → outs[j]? = some oj →
        i < j → oi.sequence_num < oj.sequence_num) :=
  ⟨by decide, Write_sequence_numbers 2 1 (fun _ => [0]) (by decide)
    [fill_with [1] 0, fill_with [2] (-1), fill_with [3] 5]⟩

theorem incr_twice (x : Nat) : ((x + 1) % UINT_RANGE + 1) % UINT_RANGE = (x + 2) % UINT_RANGE := by
  rw [uint_range_eq]
  omega

theorem store_data_Write_ring (w w' : write_callback) (r : RingBuffer) (bytes : List Byte) :
    store_data (Write_ring w' r) (next_head r.n_buffers r.m_head) bytes
      = store_data (Write_ring w r) (next_head r.n_buffers r.m_head) bytes := by
  simp only [store_data, set_slot, Write_ring, if_true]
  congr 1
  funext j
  split <;> rfl

/-- C6: on every ring state (cursor inside the ring) and for every write
callback, `Write` returns exactly the integer the callback returned; whatever
that integer is, the written slot ends with `write_active = false`, with
`num_write_ops` two higher (mod 2^32) than before and with the sequence number
of the call stored; and the rings left by two calls that differ only in their
callback differ at most in the payload bytes of the written slot. -/
theorem Write_returns_callback_value (w : write_callback) (r : RingBuffer)
    (h : r.m_head < r.n_buffers) :
    ∃ out, Write w r = some out ∧
      out.retval = (w (r.m_circular_buffer out.write_index).data r.buf_size).2 ∧
      out.payload = (w (r.m_circular_buffer out.write_index).data r.buf_size).1 ∧
      (out.ring.m_circular_buffer out.write_index).write_active = false ∧
      (out.ring.m_circular_buffer out.write_index).num_write_ops
        = ((r.m_circular_buffer out.write_index).num_write_ops + 2) % UINT_RANGE ∧
      (out.ring.m_circular_buffer out.write_index).sequence_num = out.sequence_num ∧
      out.sequence_num = r.m_seq_num ∧
      ∀ w' : write_callback, ∃ out', Write w' r = some out' ∧
        out'.write_index = out.write_index ∧ out'.sequence_num = out.sequence_num ∧
        ∀ bytes, store_data out'.ring out'.write_index bytes
                  = store_data out.ring out.write_index bytes := by
  refine ⟨_, Write_eq w r h, rfl, ?_, ?_, ?_, ?_, rfl, fun w' => ?_⟩
  · simp only [WriteResult.payload, Write_result, Write_ring, if_true]
  · simp only [Write_result, Write_ring, if_true]
  · simp only [Write_result, Write_ring, if_true]
    exact incr_twice _
  · simp only [Write_result, Write_ring, if_true]
  · exact ⟨_, Write_eq w' r h, rfl, rfl, fun bytes => store_data_Write_ring w w' r bytes⟩

/-- Witness of `Write_returns_callback_value`: a callback that fails with `-3`
on a fresh ring of 2 slots. -/
theorem Write_returns_callback_value_witness :
    (construct 2 1 (fun _ => [0])).m_head < (construct 2 1 (fun _ => [0])).n_buffers ∧
    ∃ out, Write (fill_with [9] (-3)) (construct 2 1 (fun _ => [0])) = some out ∧
      out.retval = -3 ∧ out.payload = [9] ∧
      (out.ring.m_circular_buffer out.write_index).write_active = false ∧
      (out.ring.m_circular_buffer out.write_index).num_write_ops = 2 := by
  obtain ⟨out, h1, h2, h3, h4, h5, -⟩ :=
    Write_returns_callback_value (fill_with [9] (-3)) (construct 2 1 (fun _ => [0])) (by decide)
  refine ⟨by decide, out, h1, ?_, ?_, h4, ?_⟩
  · rw [h2]; rfl
  · rw [h3]; rfl
  · rw [h5]
    simp [construct, Buf.init, uint_range_eq]

/-- C7: on every ring state (cursor inside the ring) and for every read
callback, `Read` returns exactly the integer the callback returned on the bytes
and sequence number it was handed, and the value assigned to `corrupt` is the
same for every callback: it does not depend on what the callback returns. -/
theorem Read_returns_callback_value (rd : read_callback) (r : RingBuffer)
    (h : r.m_head < r.n_buffers) :
    ∃ res, Read rd r = some res ∧
      res.retval = rd res.seen_data r.buf_size res.seen_seq ∧
      res.seen_data = (r.m_circular_buffer res.read_index).data ∧
      res.seen_seq = (r.m_circular_buffer res.read_index).sequence_num ∧
      ∀ rd' : read_callback, ∃ res', Read rd' r = some res' ∧
        res'.corrupt = res.corrupt ∧ res'.read_index = res.read_index ∧
        res'.ring = res.ring :=
  ⟨_, Read_eq rd r h, rfl, rfl, rfl, fun rd' => ⟨_, Read_eq rd' r h, rfl, rfl, rfl⟩⟩

/-- Witness of `Read_returns_callback_value`: a callback that fails with `-1`,
on a ring in which the targeted slot is being written. -/
theorem Read_returns_callback_value_witness :
    both_writers_paused.m_head < both_writers_paused.n_buffers ∧
    ∃ res, Read (fun _ _ _ => -1) both_writers_paused = some res ∧ res.retval = -1 ∧
      ∀ rd' : read_callback, ∃ res', Read rd' both_writers_paused = some res' ∧
        res'.corrupt = res.corrupt := by
  obtain ⟨res, h1, h2, -, -, h5⟩ :=
    Read_returns_callback_value (fun _ _ _ => -1) both_writers_paused (by decide)
  refine ⟨by decide, res, h1, h2, fun rd' => ?_⟩
  obtain ⟨res', h6, h7, -⟩ := h5 rd'
  exact ⟨res', h6, h7⟩

theorem advance_head_calls_spec (M : Nat) (r : RingBuffer) (h : r.m_head < r.n_buffers)
    (hR : r.n_buffers ≤ UINT_RANGE) :
    (advance_head_calls M r).1
        = (List.range M).map (fun k => (r.m_head + k + 1) % r.n_buffers) ∧
      (advance_head_calls M r).2 = { r with m_head := (r.m_head + M) % r.n_buffers } := by
  induction M generalizing r with
  | zero =>
    refine ⟨rfl, ?_⟩
    simp only [advance_head_calls, Nat.add_zero, Nat.mod_eq_of_lt h]
  | succ M ih =>
    have hlt : (advance_head r).2.m_head < (advance_head r).2.n_buffers := next_head_lt h
    obtain ⟨h1, h2⟩ := ih (advance_head r).2 hlt hR
    have hm : (advance_head r).2.m_head = (r.m_head + 1) % r.n_buffers := next_head_eq_mod h hR
    have hn : (advance_head r).2.n_buffers = r.n_buffers := rfl
    constructor
    · simp only [advance_head_calls, h1, hm, hn, List.range_succ_eq_map, List.map_cons,
        List.map_map]
      refine congrArg₂ _ ?_ ?_
      · exact hm
      · apply List.map_congr_left
        intro k _
        simp only [Function.comp]
        rw [Nat.add_assoc _ k 1, Nat.mod_add_mod]
        congr 1
        omega
    · simp only [advance_head_calls, h2, hm, hn]
      simp only [advance_head]
      congr 1
      rw [Nat.mod_add_mod]
      congr 1
      omega


theorem round_robin_nodup (N h : Nat) :
    ((List.range N).map (fun k => (h + k + 1) % N)).Nodup := by
  refine List.Nodup.map_on ?_ (List.nodup_range N)
  intro x hx y hy hxy
  have hx' : x < N := List.mem_range.mp hx
  have hy' : y < N := List.mem_range.mp hy
  have e : (h + 1 + x) % N = (h + 1 + y) % N := by
    have ex : h + x + 1 = h + 1 + x := by omega
    have ey : h + y + 1 = h + 1 + y := by omega
    simpa only [ex, ey] using hxy
  have : x % N = y % N := Nat.ModEq.add_left_cancel' (h + 1) e
  rwa [Nat.mod_eq_of_lt hx', Nat.mod_eq_of_lt hy'] at this

theorem round_robin_mem {N h : Nat} (hh : h < N) (i : Nat) :
    i ∈ (List.range N).map (fun k => (h + k + 1) % N) ↔ i < N := by
  constructor
  · intro hi
    obtain ⟨k, -, rfl⟩ := List.mem_map.mp hi
    exact Nat.mod_lt _ (Nat.zero_lt_of_lt hh)
  · intro hi
    refine List.mem_map.mpr ?_
    by_cases hc : h + 1 ≤ i
    · refine ⟨i - (h + 1), List.mem_range.mpr (by omega), ?_⟩
      have : h + (i - (h + 1)) + 1 = i := by omega
      rw [this, Nat.mod_eq_of_lt hi]
    · refine ⟨i + N - (h + 1), List.mem_range.mpr (by omega), ?_⟩
      have : h + (i + N - (h + 1)) + 1 = i + N := by omega
      rw [this, Nat.add_mod_right, Nat.mod_eq_of_lt hi]

/-- C8, as amended: for every ring of `N` slots with `2 ≤ N ≤ 2^32` and every
cursor value `h` in `[0, N)`, `M` consecutive `advance_head` calls return
`(h+1) mod N, ..., (h+M) mod N` in that order; each call leaves the cursor
equal to the index it returned and changes nothing else in the ring; two
consecutive calls return different indices; and `N` consecutive calls return
every index of `[0, N)` exactly once. -/
theorem advance_head_round_robin (r : RingBuffer) (hN : 2 ≤ r.n_buffers)
    (hR : r.n_buffers ≤ UINT_RANGE) (h : r.m_head < r.n_buffers) (M : Nat) :
    (advance_head_calls M r).1
        = (List.range M).map (fun k => (r.m_head + k + 1) % r.n_buffers) ∧
    (advance_head_calls M r).2 = { r with m_head := (r.m_head + M) % r.n_buffers } ∧
    (advance_head r).2 = { r with m_head := (advance_head r).1 } ∧
    (advance_head r).1 = (r.m_head + 1) % r.n_buffers ∧
    (advance_head (advance_head r).2).1 ≠ (advance_head r).1 ∧
    (advance_head_calls r.n_buffers r).1.Nodup ∧
    (∀ i, i ∈ (advance_head_calls r.n_buffers r).1 ↔ i < r.n_buffers) := by
  have hs := advance_head_calls_spec M r h hR
  have hs' := advance_head_calls_spec r.n_buffers r h hR
  refine ⟨hs.1, hs.2, rfl, next_head_eq_mod h hR, ?_, ?_, ?_⟩
  · exact next_head_ne hN (next_head_lt h)
  · rw [hs'.1]
    exact round_robin_nodup _ _
  · intro i
    rw [hs'.1]
    exact round_robin_mem h i

/-- Witness of `advance_head_round_robin`: 5 calls on a ring of 3 slots whose
cursor stands at 2 return 0, 1, 2, 0, 1. -/
theorem advance_head_round_robin_witness :
    2 ≤ small_ring.n_buffers ∧ small_ring.n_buffers ≤ UINT_RANGE ∧
    small_ring.m_head < small_ring.n_buffers ∧
    (advance_head_calls 5 small_ring).1 = [0, 1, 2, 0, 1] := by
  have hR : small_ring.n_buffers ≤ UINT_RANGE := by
    norm_num [UINT_RANGE, small_ring, construct]
  have h := (advance_head_round_robin small_ring (by decide) hR (by decide) 5).1
  refine ⟨by decide, hR, by decide, ?_⟩
  rw [h]
  decide

/-- C8 fails as stated for `N > 2^32`: on a ring of `N = 2^32 + 1` slots whose
cursor is `h = 2^32 - 1`, `advance_head` returns 0 and not `(h + 1) mod N`,
which is `2^32`. -/
theorem advance_head_wraps_at_uint_range :
    2 ≤ wide_ring.n_buffers ∧ wide_ring.m_head < wide_ring.n_buffers ∧
    (advance_head wide_ring).1 = 0 ∧
    (wide_ring.m_head + 1) % wide_ring.n_buffers = 4294967296 ∧
    (advance_head wide_ring).1 ≠ (wide_ring.m_head + 1) % wide_ring.n_buffers := by
  decide

/-- C9, as amended: a ring with one slot is accepted at construction (the
constructor checks nothing); on it every `Write` fills slot 0 and every `Read`
targets slot 0, so that after any number of complete `Write` calls, `Read`
reports `corrupt = false` and hands its callback the payload bytes and the
sequence number of the last `Write`. -/
theorem single_slot_ring_is_usable (S : Nat) (bytes : Nat → List Byte)
    (ws : List write_callback) (w : write_callback) (rd : read_callback) :
    (construct 1 S bytes).n_buffers = 1 ∧
    ∃ outs out r res,
      write_calls (ws ++ [w]) (construct 1 S bytes) = some (outs ++ [out], r) ∧
      outs.length = ws.length ∧ out.write_index = 0 ∧
      Read rd r = some res ∧ res.read_index = 0 ∧ res.corrupt = false ∧
      res.seen_data = out.payload ∧ res.seen_seq = out.sequence_num := by
  have hq0 : Quiet (construct 1 S bytes) := construct_quiet (by decide) S bytes
  have hs0 : (construct 1 S bytes).m_seq_num < ULL_RANGE := by
    norm_num [construct, ULL_RANGE]
  obtain ⟨outs, r1, h1, h2, h3, h4, -⟩ := write_calls_quiet ws hq0 hs0
  have hN1 : r1.n_buffers = 1 := h4
  have hh : r1.m_head = 0 := by
    have := h3.1
    omega
  have hq2 : Quiet (Write_ring w r1) := Write_ring_quiet w h3
  have hn : next_head 1 0 = 0 := by decide
  have hi : read_index_of 1 0 = 0 := by decide
  refine ⟨rfl, outs, Write_result w r1, _, _, write_calls_snoc ws w _ h1 h3.1, h2, ?_,
    Read_quiet rd hq2, ?_, rfl, ?_, ?_⟩
  · simp only [Write_result, hN1, hh, hn]
  · simp only [Read_result, Write_result, Write_ring, hN1, hh, hn, hi]
  · simp only [Read_result, Write_result, Write_ring, WriteResult.payload, hN1, hh, hn, hi]
  · simp only [Read_result, Write_result, Write_ring, hN1, hh, hn, hi, if_true]

/-- C9 fails as stated: a ring with `n_buffers = 1` is constructed, `Write`
stores `[7, 8]` into its slot 0 and returns, and `Read` hands `[7, 8]` with
sequence number 0 to its callback and reports `corrupt = false`. -/
theorem single_slot_ring_is_accepted :
    (construct 1 2 (fun _ => [0, 0])).n_buffers = 1 ∧
    (Write (fill_with [7, 8] 0) (construct 1 2 (fun _ => [0, 0]))).map
        (fun out => (out.retval, out.write_index, out.payload)) = some (0, 0, [7, 8]) ∧
    ((Write (fill_with [7, 8] 0) (construct 1 2 (fun _ => [0, 0]))).bind
        (fun out => (Read (fun _ _ _ => 0) out.ring).map
          (fun res => (res.retval, res.corrupt, res.read_index, res.seen_data, res.seen_seq))))
      = some (0, false, 0, [7, 8], 0) := by
  decide

theorem read_calls_quiet (rds : List read_callback) {r : RingBuffer} (h : Quiet r) :
    ∃ ress, read_calls rds r = some (ress, r) ∧ ress.length = rds.length ∧
      ∀ res ∈ ress, res.ring = r ∧ res.corrupt = false ∧
        res.seen_data = (r.m_circular_buffer (read_index_of r.n_buffers r.m_head)).data ∧
        res.seen_seq
          = (r.m_circular_buffer (read_index_of r.n_buffers r.m_head)).sequence_num := by
  induction rds with
  | nil => exact ⟨[], rfl, rfl, fun res hres => absurd hres (List.not_mem_nil res)⟩
  | cons rd rds ih =>
    obtain ⟨ress, h1, h2, h3⟩ := ih
    refine ⟨Read_result rd r :: ress, ?_, ?_, ?_⟩
    · have h1' : read_calls rds (Read_result rd r).ring = some (ress, r) := h1
      simp only [read_calls, Read_quiet rd h, h1']
    · simp [h2]
    · intro res hres
      rcases List.mem_cons.mp hres with rfl | hmem
      · exact ⟨rfl, rfl, rfl, rfl⟩
      · exact h3 res hmem

/-- C10: on every ring state reached from a fresh ring (of at least one slot)
by complete `Write` calls only, `Read` returns with the ring exactly as it
found it (the `num_readers` of the targeted slot is incremented and then
decremented back) and reports `corrupt = false`; hence any number of
successive `Read` calls leave the ring unchanged, all report
`corrupt = false`, and all hand their callbacks the same bytes and the same
sequence number. -/
theorem Read_is_idempotent (N S : Nat) (bytes : Nat → List Byte) (hN : 0 < N)
    (ws : List write_callback) (rds : List read_callback) :
    ∃ outs r, write_calls ws (construct N S bytes) = some (outs, r) ∧
      (∀ rd : read_callback, ∃ res, Read rd r = some res ∧ res.ring = r ∧
        res.corrupt = false ∧
        (incr_num_readers r res.read_index).m_circular_buffer res.read_index
          = { r.m_circular_buffer res.read_index with num_readers := 1 } ∧
        decr_num_readers (incr_num_readers r res.read_index) res.read_index = r) ∧
      ∃ ress, read_calls rds r = some (ress, r) ∧ ress.length = rds.length ∧
        ∀ res ∈ ress, res.ring = r ∧ res.corrupt = false ∧
          res.seen_data = (r.m_circular_buffer (read_index_of r.n_buffers r.m_head)).data ∧
          res.seen_seq
            = (r.m_circular_buffer (read_index_of r.n_buffers r.m_head)).sequence_num := by
  have hq0 : Quiet (construct N S bytes) := construct_quiet hN S bytes
  have hs0 : (construct N S bytes).m_seq_num < ULL_RANGE := by
    norm_num [construct, ULL_RANGE]
  obtain ⟨outs, r, h1, -, h3, -⟩ := write_calls_quiet ws hq0 hs0
  refine ⟨outs, r, h1, fun rd => ⟨_, Read_quiet rd h3, rfl, rfl, ?_, ?_⟩,
    read_calls_quiet rds h3⟩
  · simp only [incr_num_readers, set_slot, if_true, (h3.2 _).2, uint_range_eq]
  · exact readers_round_trip r _ (h3.2 _).2

/-- Witness of `Read_is_idempotent`: two `Write` calls, then three `Read`
calls, on a ring of 2 slots. -/
theorem Read_is_idempotent_witness :
    0 < 2 ∧
    ∃ outs r, write_calls [fill_with [1] 0, fill_with [2] 0] (construct 2 1 (fun _ => [0]))
        = some (outs, r) ∧
      ∃ ress, read_calls [fun _ _ _ => 0, fun _ _ _ => 1, fun _ _ _ => 2] r = some (ress, r) ∧
        ress.length = 3 ∧ ∀ res ∈ ress, res.ring = r ∧ res.corrupt = false := by
  obtain ⟨outs, r, h1, -, ress, h3, h4, h5⟩ :=
    Read_is_idempotent 2 1 (fun _ => [0]) (by decide) [fill_with [1] 0, fill_with [2] 0]
      [fun _ _ _ => 0, fun _ _ _ => 1, fun _ _ _ => 2]
  exact ⟨by decide, outs, r, h1, ress, h3, h4,
    fun res hres => ⟨(h5 res hres).1, (h5 res hres).2.1⟩⟩

/-! ### Interleaved calls: the markers of a slot -/

theorem Writer_step_n_buffers (r : RingBuffer) (w : Writer) :
    (Writer.step r w).1.n_buffers = r.n_buffers := by
  rcases w with ⟨pc, payload, ret, sq, ch, wi, rv⟩
  cases pc <;>
    simp only [Writer.step, store_write_active, incr_num_write_ops, store_data,
      store_sequence_num, set_slot] <;>
    split <;> rfl

theorem Reader_step_n_buffers (r : RingBuffer) (rd : Reader) :
    (Reader.step r rd).1.n_buffers = r.n_buffers := by
  rcases rd with ⟨pc, ret, ri, ws, os, sq, cp, oe, we, co, rv⟩
  cases pc
  all_goals simp only [Reader.step, incr_num_readers, decr_num_readers, set_slot]
  all_goals first | rfl | (split <;> rfl)

theorem Config_step_threads_of_ne (c : Config) {i j : Nat} (h : j ≠ i) :
    (c.step i).threads j = c.threads j := by
  unfold Config.step
  split
  · split <;> simp [h]
  · rfl

theorem Config_step_n_threads (c : Config) (i : Nat) :
    (c.step i).n_threads = c.n_threads := by
  unfold Config.step
  split
  · split <;> rfl
  · rfl

/-- The last step of `Read` reports `corrupt = true` as soon as the two
snapshots of `num_write_ops` differ or one of the two snapshots of
`write_active` is set. -/
theorem Reader_step_reports_difference (r : RingBuffer) (rd : Reader)
    (hpc : rd.pc = .load_active_end)
    (h : rd.ops_at_start ≠ rd.ops_at_end ∨ rd.write_at_start = true ∨
      (r.m_circular_buffer rd.read_index).write_active = true) :
    (Reader.step r rd).2.corrupt = true ∧ (Reader.step r rd).2.pc = .done := by
  rcases rd with ⟨pc, ret, ri, ws, os, sq, cp, oe, we, co, rv⟩
  simp only at hpc
  subst hpc
  simp only [Reader.step, Bool.or_eq_true, bne_iff_ne, ne_eq, and_true]
  rcases h with h | h | h
  · exact Or.inr h
  · exact Or.inl (Or.inl h)
  · exact Or.inl (Or.inr h)

/-- C2 fails on the code.  On a ring of 2 slots of 2 bytes, `[1, 2]` and
`[3, 4]` are published by two complete `Write` calls (slot 1 and slot 0).  A
`Read` then loads the cursor, targets slot 1 and loads `write_active = false`;
a third `Write`, of `[5, 6]`, is given slot 1, marks it and increments
`num_write_ops` to 3; `Read` loads `ops_at_start = 3`; the write callback
stores its first byte; the read callback copies `[5, 2]` while the writer is
inside its callback; `Read` loads `ops_at_end = 3`; the `Write` completes; `Read`
loads `write_active = false`.  `Read` returns with `corrupt = false` although the
bytes it copied, `[5, 2]`, with sequence number 0, are the payload of no
publish.  When each callback runs in one piece (`stale_read_schedule`), `Read`
likewise returns `corrupt = false`, having copied `[5, 6]` with sequence number
0 from the `Write` that was in progress. -/
theorem Read_misses_overlapping_Write :
    ((torn_read_start.run torn_read_history).ring.m_circular_buffer 1).data = [1, 2] ∧
    ((torn_read_start.run torn_read_history).ring.m_circular_buffer 1).sequence_num = 0 ∧
    ((torn_read_start.run torn_read_history).ring.m_circular_buffer 0).data = [3, 4] ∧
    ((torn_read_start.run (torn_read_history ++ torn_read_overlap.take 12)).threads
      2).in_write_callback 1 = true ∧
    ((torn_read_start.run (torn_read_history ++ torn_read_overlap.take 14)).threads
      2).in_write_callback 1 = true ∧
    ((torn_read_start.run torn_read_schedule).ring.m_circular_buffer 1).data = [5, 6] ∧
    ((torn_read_start.run torn_read_schedule).ring.m_circular_buffer 1).sequence_num = 2 ∧
    (torn_read_start.run torn_read_schedule).threads 3 =
      .reader { pc := .done, ret := 0, read_index := 1, write_at_start := false,
                ops_at_start := 3, seen_seq := 0, copied := [5, 2], ops_at_end := 3,
                write_at_end := false, corrupt := false, retval := 0 } ∧
    ((torn_read_start.run (torn_read_history ++ stale_read_overlap.take 13)).threads 2).writes_into
      1 = true ∧
    ((torn_read_start.run (torn_read_history ++ stale_read_overlap.take 16)).threads 2).writes_into
      1 = true ∧
    (torn_read_start.run stale_read_schedule).threads 3 =
      .reader { pc := .done, ret := 0, read_index := 1, write_at_start := false,
                ops_at_start := 3, seen_seq := 0, copied := [5, 6], ops_at_end := 3,
                write_at_end := false, corrupt := false, retval := 0 } := by
  decide

theorem Config_step_n_buffers (c : Config) (i : Nat) :
    (c.step i).ring.n_buffers = c.ring.n_buffers := by
  unfold Config.step
  split
  · split
    · exact Writer_step_n_buffers _ _
    · exact Reader_step_n_buffers _ _
  · rfl

theorem Config_run_shape (c : Config) (sched : List Nat) :
    (c.run sched).ring.n_buffers = c.ring.n_buffers ∧ (c.run sched).n_threads = c.n_threads := by
  induction sched generalizing c with
  | nil => exact ⟨rfl, rfl⟩
  | cons i rest ih =>
    obtain ⟨h1, h2⟩ := ih (c.step i)
    exact ⟨h1.trans (Config_step_n_buffers c i), h2.trans (Config_step_n_threads c i)⟩

theorem Writer_steps_add (a b : Nat) (s : RingBuffer × Writer) :
    Writer.steps (a + b) s = Writer.steps b (Writer.steps a s) := by
  induction a generalizing s with
  | zero => simp [Writer.steps]
  | succ a ih =>
    rw [Nat.succ_add]
    simp only [Writer.steps]
    exact ih _

theorem Config_run_writer_alone (c : Config) (i : Nat) (hi : i < c.n_threads) (w : Writer)
    (ht : c.threads i = .writer w) (k : Nat) :
    (c.run (List.replicate k i)).ring = (Writer.steps k (c.ring, w)).1 ∧
      (c.run (List.replicate k i)).threads i = .writer (Writer.steps k (c.ring, w)).2 := by
  induction k generalizing c w with
  | zero => exact ⟨rfl, ht⟩
  | succ k ih =>
    have hring : (c.step i).ring = (Writer.step c.ring w).1 := by
      simp only [Config.step, hi, if_true, ht]
    have hthr : (c.step i).threads i = Thread.writer (Writer.step c.ring w).2 := by
      simp only [Config.step, hi, if_true, ht]
    have hn : i < (c.step i).n_threads := by
      rw [Config_step_n_threads]; exact hi
    have := ih (c.step i) hn _ hthr
    rw [hring] at this
    simpa only [List.replicate_succ, Config.run, Writer.steps] using this

/-- The bytes of a buffer after the write callback has stored its first `k`
bytes, starting at byte `j`. -/
theorem fill_loop (r : RingBuffer) (w : Writer) (k j : Nat) (hpc : w.pc = .fill j)
    (hjk : j + k ≤ r.buf_size) :
    ∃ bytes : List Byte,
      Writer.steps k (r, w) = (store_data r w.write_index bytes, { w with pc := .fill (j + k) }) ∧
      bytes.length = (r.m_circular_buffer w.write_index).data.length ∧
      ∀ m, m < bytes.length → bytes[m]? =
        if j ≤ m ∧ m < j + k then some (w.payload.getD m 0)
        else (r.m_circular_buffer w.write_index).data[m]? := by
  induction k generalizing r w j with
  | zero =>
    refine ⟨(r.m_circular_buffer w.write_index).data, ?_, rfl, ?_⟩
    · rcases w with ⟨pc, payload, ret, sq, ch, wi, rv⟩
      simp only at hpc
      subst hpc
      rcases r with ⟨n, s, slots, head, seq⟩
      simp only [Writer.steps, store_data, set_slot, Nat.add_zero]
      congr 2
      funext x
      split
      · rename_i hx
        rw [hx]
      · rfl
    · intro m _
      rw [if_neg (by omega)]
  | succ k ih =>
    have hj : j < r.buf_size := by omega
    have hstep : Writer.step r w =
        (store_data r w.write_index
          ((r.m_circular_buffer w.write_index).data.set j (w.payload.getD j 0)),
         { w with pc := .fill (j + 1) }) := by
      rcases w with ⟨pc, payload, ret, sq, ch, wi, rv⟩
      simp only at hpc
      subst hpc
      simp only [Writer.step, hj, if_true]
    obtain ⟨bytes, h1, h2, h3⟩ := ih
      (store_data r w.write_index
        ((r.m_circular_buffer w.write_index).data.set j (w.payload.getD j 0)))
      { w with pc := .fill (j + 1) } (j + 1) rfl (by simp only [store_data, set_slot]; omega)
    refine ⟨bytes, ?_, ?_, ?_⟩
    · simp only [Writer.steps, hstep, h1]
      rcases r with ⟨n, s, slots, head, seq⟩
      simp only [store_data, set_slot, if_true, Nat.add_assoc, Nat.add_comm 1 k]
      congr 2
      funext x
      split <;> rfl
    · rw [h2]
      simp [store_data, set_slot]
    · intro m hm
      rw [h3 m hm]
      simp only [store_data, set_slot, if_true]
      by_cases hmj : m = j
      · subst hmj
        have hlen : m < (r.m_circular_buffer w.write_index).data.length := by
          rw [h2] at hm
          simpa [store_data, set_slot] using hm
        rw [if_neg (by omega), if_pos (by omega)]
        simp [List.getElem?_set, hlen]
      · by_cases hin : j + 1 ≤ m ∧ m < j + 1 + k
        · rw [if_pos hin, if_pos (by omega)]
        · rw [if_neg hin, if_neg (by omega)]
          simp [List.getElem?_set, Ne.symm hmj]


/-- One `Write` call run by a thread with no step of another thread in between
leaves the ring that the member function `Write` of Part 1 leaves with the
callback `fill_with payload ret`, and returns the same value. -/
theorem Write_call_alone (c : Config) (i : Nat) (hi : i < c.n_threads) (payload : List Byte)
    (ret : Int) (ht : c.threads i = (Call.write payload ret).thread)
    (hh : c.ring.m_head < c.ring.n_buffers) (hlen : payload.length = c.ring.buf_size)
    (hdata : (c.ring.m_circular_buffer (next_head c.ring.n_buffers c.ring.m_head)).data.length
      = c.ring.buf_size) :
    (c.run (List.replicate (c.ring.buf_size + 9) i)).ring
        = Write_ring (fill_with payload ret) c.ring ∧
      (c.run (List.replicate (c.ring.buf_size + 9) i)).threads i =
        .writer { pc := .done, payload := payload, ret := ret,
                  sequence_num := c.ring.m_seq_num, current_head := c.ring.m_head,
                  write_index := next_head c.ring.n_buffers c.ring.m_head, retval := ret } := by
  obtain ⟨h1, h2⟩ := Config_run_writer_alone c i hi _ ht (c.ring.buf_size + 9)
  rw [h1, h2]
  have hnext := next_head_lt hh
  have e : c.ring.buf_size + 9 = 5 + (c.ring.buf_size + 4) := by omega
  rw [e, Writer_steps_add, Writer_steps_add]
  generalize hr : c.ring = r at *
  -- the five operations before the callback
  have h5 : Writer.steps 5
        (r, { pc := .take_seq, payload := payload, ret := ret, sequence_num := 0,
              current_head := 0, write_index := 0, retval := 0 }) =
      (incr_num_write_ops (store_write_active
          { r with m_seq_num := (r.m_seq_num + 1) % ULL_RANGE,
                   m_head := next_head r.n_buffers r.m_head }
          (next_head r.n_buffers r.m_head) true) (next_head r.n_buffers r.m_head),
       { pc := .fill 0, payload := payload, ret := ret, sequence_num := r.m_seq_num,
         current_head := r.m_head, write_index := next_head r.n_buffers r.m_head,
         retval := 0 }) := by
    simp [Writer.steps, Writer.step, hnext, store_write_active, incr_num_write_ops, set_slot]
  rw [h5]
  -- the callback
  obtain ⟨bytes, hf1, hf2, hf3⟩ := fill_loop
    (incr_num_write_ops (store_write_active
          { r with m_seq_num := (r.m_seq_num + 1) % ULL_RANGE,
                   m_head := next_head r.n_buffers r.m_head }
          (next_head r.n_buffers r.m_head) true) (next_head r.n_buffers r.m_head))
    { pc := .fill 0, payload := payload, ret := ret, sequence_num := r.m_seq_num,
      current_head := r.m_head, write_index := next_head r.n_buffers r.m_head, retval := 0 }
    r.buf_size 0 rfl (by simp [incr_num_write_ops, store_write_active, set_slot])
  rw [hf1]
  have hbytes : bytes = payload := by
    have hl : bytes.length = r.buf_size := by
      rw [hf2]
      simpa [incr_num_write_ops, store_write_active, set_slot] using hdata
    apply List.ext_getElem?
    intro m
    by_cases hm : m < bytes.length
    · rw [hf3 m hm, if_pos (by omega)]
      have hm' : m < payload.length := by omega
      simp [List.getD_eq_getElem?_getD, List.getElem?_eq_getElem hm']
    · rw [List.getElem?_eq_none (by omega), List.getElem?_eq_none (by omega)]
  subst hbytes
  -- the return of the callback and the three operations after it
  rcases r with ⟨n, s, slots, head, seq⟩
  simp only [Writer.steps, Writer.step, Nat.zero_add, lt_irrefl, if_false,
    store_write_active, incr_num_write_ops, store_data, store_sequence_num, set_slot,
    if_true, Write_ring, fill_with]
  refine ⟨?_, trivial⟩
  congr 1
  funext x
  split <;> rfl

theorem Reader_steps_add (a b : Nat) (s : RingBuffer × Reader) :
    Reader.steps (a + b) s = Reader.steps b (Reader.steps a s) := by
  induction a generalizing s with
  | zero => simp [Reader.steps]
  | succ a ih =>
    rw [Nat.succ_add]
    simp only [Reader.steps]
    exact ih _

theorem Config_run_reader_alone (c : Config) (i : Nat) (hi : i < c.n_threads) (rd : Reader)
    (ht : c.threads i = .reader rd) (k : Nat) :
    (c.run (List.replicate k i)).ring = (Reader.steps k (c.ring, rd)).1 ∧
      (c.run (List.replicate k i)).threads i = .reader (Reader.steps k (c.ring, rd)).2 := by
  induction k generalizing c rd with
  | zero => exact ⟨rfl, ht⟩
  | succ k ih =>
    have hring : (c.step i).ring = (Reader.step c.ring rd).1 := by
      simp only [Config.step, hi, if_true, ht]
    have hthr : (c.step i).threads i = Thread.reader (Reader.step c.ring rd).2 := by
      simp only [Config.step, hi, if_true, ht]
    have hn : i < (c.step i).n_threads := by
      rw [Config_step_n_threads]; exact hi
    have := ih (c.step i) hn _ hthr
    rw [hring] at this
    simpa only [List.replicate_succ, Config.run, Reader.steps] using this

/-- The bytes the read callback has copied after `k` more bytes, starting at
byte `j`. -/
theorem copy_loop (r : RingBuffer) (rd : Reader) (k j : Nat) (hpc : rd.pc = .copy j)
    (hjk : j + k ≤ r.buf_size)
    (hlen : (r.m_circular_buffer rd.read_index).data.length = r.buf_size) :
    Reader.steps k (r, rd) =
      (r, { rd with pc := .copy (j + k),
                    copied := rd.copied ++
                      ((r.m_circular_buffer rd.read_index).data.drop j).take k }) := by
  induction k generalizing rd j with
  | zero =>
    rcases rd with ⟨pc, ret, ri, ws, os, sq, cp, oe, we, co, rv⟩
    simp only at hpc
    subst hpc
    simp [Reader.steps]
  | succ k ih =>
    have hj : j < r.buf_size := by omega
    have hstep : Reader.step r rd =
        (r, { rd with copied := rd.copied ++ [(r.m_circular_buffer rd.read_index).data.getD j 0],
                      pc := .copy (j + 1) }) := by
      rcases rd with ⟨pc, ret, ri, ws, os, sq, cp, oe, we, co, rv⟩
      simp only at hpc
      subst hpc
      simp only [Reader.step, hj, if_true]
    simp only [Reader.steps, hstep]
    have hk := ih
      { rd with copied := rd.copied ++ [(r.m_circular_buffer rd.read_index).data.getD j 0],
                pc := .copy (j + 1) } (j + 1) rfl (by omega) hlen
    rw [hk]
    have hj' : j < (r.m_circular_buffer rd.read_index).data.length := by omega
    have e : (r.m_circular_buffer rd.read_index).data.getD j 0
        = (r.m_circular_buffer rd.read_index).data[j] := by
      simp [List.getD_eq_getElem?_getD, List.getElem?_eq_getElem hj']
    have e2 : ((r.m_circular_buffer rd.read_index).data.drop j).take (k + 1)
        = (r.m_circular_buffer rd.read_index).data[j]
            :: ((r.m_circular_buffer rd.read_index).data.drop (j + 1)).take k := by
      rw [List.drop_eq_getElem_cons hj', List.take_succ_cons]
    simp only [e, e2, List.append_assoc, List.singleton_append, Nat.add_assoc,
      Nat.add_comm 1 k]


/-- One `Read` call run by a thread with no step of another thread in between
returns what the member function `Read` of Part 1 returns with a callback that
returns `ret`: the same ring, the same snapshots and `corrupt` flag, and the
bytes copied by the callback are the bytes handed to the callback. -/
theorem Read_call_alone (c : Config) (i : Nat) (hi : i < c.n_threads) (ret : Int)
    (ht : c.threads i = (Call.read ret).thread) (hh : c.ring.m_head < c.ring.n_buffers)
    (hdata : (c.ring.m_circular_buffer
        (read_index_of c.ring.n_buffers c.ring.m_head)).data.length = c.ring.buf_size) :
    ∃ res, Read (fun _ _ _ => ret) c.ring = some res ∧
      (c.run (List.replicate (c.ring.buf_size + 9) i)).ring = res.ring ∧
      (c.run (List.replicate (c.ring.buf_size + 9) i)).threads i =
        .reader { pc := .done, ret := ret, read_index := res.read_index,
                  write_at_start := res.write_at_start, ops_at_start := res.ops_at_start,
                  seen_seq := res.seen_seq, copied := res.seen_data,
                  ops_at_end := res.ops_at_end, write_at_end := res.write_at_end,
                  corrupt := res.corrupt, retval := res.retval } := by
  refine ⟨_, Read_eq _ c.ring hh, ?_⟩
  obtain ⟨h1, h2⟩ := Config_run_reader_alone c i hi _ ht (c.ring.buf_size + 9)
  rw [h1, h2]
  have hidx := read_index_lt hh
  have e : c.ring.buf_size + 9 = 5 + (c.ring.buf_size + 4) := by omega
  rw [e, Reader_steps_add, Reader_steps_add]
  generalize hr : c.ring = r at *
  have h5 : Reader.steps 5
        (r, { pc := .load_head, ret := ret, read_index := 0, write_at_start := false,
              ops_at_start := 0, seen_seq := 0, copied := [], ops_at_end := 0,
              write_at_end := false, corrupt := false, retval := 0 }) =
      (incr_num_readers r (read_index_of r.n_buffers r.m_head),
       { pc := .copy 0, ret := ret, read_index := read_index_of r.n_buffers r.m_head,
         write_at_start :=
           (r.m_circular_buffer (read_index_of r.n_buffers r.m_head)).write_active,
         ops_at_start :=
           (r.m_circular_buffer (read_index_of r.n_buffers r.m_head)).num_write_ops,
         seen_seq := (r.m_circular_buffer (read_index_of r.n_buffers r.m_head)).sequence_num,
         copied := [], ops_at_end := 0, write_at_end := false, corrupt := false,
         retval := 0 }) := by
    simp [Reader.steps, Reader.step, hidx, incr_num_readers, set_slot]
  rw [h5]
  have hloop := copy_loop (incr_num_readers r (read_index_of r.n_buffers r.m_head))
    { pc := .copy 0, ret := ret, read_index := read_index_of r.n_buffers r.m_head,
      write_at_start := (r.m_circular_buffer (read_index_of r.n_buffers r.m_head)).write_active,
      ops_at_start := (r.m_circular_buffer (read_index_of r.n_buffers r.m_head)).num_write_ops,
      seen_seq := (r.m_circular_buffer (read_index_of r.n_buffers r.m_head)).sequence_num,
      copied := [], ops_at_end := 0, write_at_end := false, corrupt := false, retval := 0 }
    r.buf_size 0 rfl (by simp [incr_num_readers, set_slot])
    (by simpa [incr_num_readers, set_slot] using hdata)
  rw [hloop]
  have htake : List.take r.buf_size
      (r.m_circular_buffer (read_index_of r.n_buffers r.m_head)).data
      = (r.m_circular_buffer (read_index_of r.n_buffers r.m_head)).data :=
    List.take_of_length_le (by omega)
  simp [Reader.steps, Reader.step, incr_num_readers, decr_num_readers, set_slot, htake]

/-! ### The cursor and the indices passed to `at` stay inside the ring -/

theorem run_ops_quiet (ops : List Op) {r : RingBuffer} (h : Quiet r) :
    ∃ ress r', run_ops ops r = some (ress, r') ∧ ress.length = ops.length ∧ Quiet r' ∧
      r'.n_buffers = r.n_buffers ∧
      ∀ res ∈ ress, res.index < r.n_buffers ∧ res.ring.m_head < r.n_buffers ∧
        res.ring.n_buffers = r.n_buffers := by
  induction ops generalizing r with
  | nil => exact ⟨[], r, rfl, rfl, h, rfl, fun res hres => absurd hres (List.not_mem_nil res)⟩
  | cons op ops ih =>
    cases op with
    | write w =>
      have hq := Write_ring_quiet w h
      obtain ⟨ress, r', h1, h2, h3, h4, h5⟩ := ih hq
      have h1' : run_ops ops (OpResult.wrote (Write_result w r)).ring = some (ress, r') := h1
      refine ⟨OpResult.wrote (Write_result w r) :: ress, r', ?_, ?_, h3, h4, ?_⟩
      · simp only [run_ops, run_op, Write_eq w r h.1, Option.map_some', h1']
      · simp [h2]
      · intro res hres
        rcases List.mem_cons.mp hres with rfl | hmem
        · exact ⟨next_head_lt h.1, hq.1, rfl⟩
        · exact h5 res hmem
    | read rd =>
      obtain ⟨ress, r', h1, h2, h3, h4, h5⟩ := ih h
      have h1' : run_ops ops (OpResult.was_read (Read_result rd r)).ring = some (ress, r') := h1
      refine ⟨OpResult.was_read (Read_result rd r) :: ress, r', ?_, ?_, h3, h4, ?_⟩
      · simp only [run_ops, run_op, Read_quiet rd h, Option.map_some', h1']
      · simp [h2]
      · intro res hres
        rcases List.mem_cons.mp hres with rfl | hmem
        · exact ⟨read_index_lt h.1, h.1, rfl⟩
        · exact h5 res hmem

theorem Writer_step_in_range (r : RingBuffer) (w : Writer) (hh : r.m_head < r.n_buffers)
    (hw : w.pc ≠ .thrown) (hidx : w.holding = true → w.write_index < r.n_buffers) :
    (Writer.step r w).1.m_head < r.n_buffers ∧ (Writer.step r w).2.pc ≠ .thrown ∧
      ((Writer.step r w).2.holding = true → (Writer.step r w).2.write_index < r.n_buffers) := by
  rcases w with ⟨pc, payload, ret, sq, ch, wi, rv⟩
  cases pc
  case thrown => exact absurd rfl hw
  case cas_head =>
    simp only [Writer.step]
    split
    · rename_i he
      have hlt : next_head r.n_buffers ch < r.n_buffers := by
        rw [← he]
        exact next_head_lt hh
      simp [hlt, Writer.holding]
    · simp [hh, Writer.holding]
  case fill j =>
    simp only [Writer.step]
    split
    · simpa [store_data, set_slot, Writer.holding, hh] using hidx
    · simpa [Writer.holding, hh] using hidx
  all_goals first
    | (simp [Writer.step, store_write_active, set_slot, Writer.holding, hh]; done)
    | simpa [Writer.step, store_write_active, incr_num_write_ops, store_sequence_num, set_slot,
        Writer.holding, hh] using hidx

theorem Reader_step_in_range (r : RingBuffer) (rd : Reader) (hh : r.m_head < r.n_buffers)
    (hw : rd.pc ≠ .thrown)
    (hidx : ∀ k, (Thread.reader rd).at_index = some k → k < r.n_buffers) :
    (Reader.step r rd).1.m_head < r.n_buffers ∧ (Reader.step r rd).2.pc ≠ .thrown ∧
      ∀ k, (Thread.reader (Reader.step r rd).2).at_index = some k → k < r.n_buffers := by
  rcases rd with ⟨pc, ret, ri, ws, os, sq, cp, oe, we, co, rv⟩
  cases pc
  case thrown => exact absurd rfl hw
  case load_head =>
    have hlt := read_index_lt hh
    simp [Reader.step, hlt, hh, Thread.at_index]
  case copy j =>
    simp only [Reader.step]
    split
    · simpa [Thread.at_index, hh] using hidx
    · simpa [Thread.at_index, hh] using hidx
  all_goals
    simpa [Reader.step, incr_num_readers, decr_num_readers, set_slot, Thread.at_index, hh]
      using hidx


theorem Config_step_in_range (c : Config) (i : Nat) (h : c.in_range) :
    (c.step i).in_range := by
  by_cases hi : i < c.n_threads
  swap
  · have : c.step i = c := by simp [Config.step, hi]
    rw [this]
    exact h
  have hnb := Config_step_n_buffers c i
  have hnt := Config_step_n_threads c i
  obtain ⟨hh, hall⟩ := h
  obtain ⟨hthrown, hidx⟩ := hall i hi
  unfold Config.in_range
  rw [hnb, hnt]
  cases ht : c.threads i with
  | writer w =>
    have hring : (c.step i).ring = (Writer.step c.ring w).1 := by
      simp only [Config.step, hi, if_true, ht]
    have hthr : (c.step i).threads i = Thread.writer (Writer.step c.ring w).2 := by
      simp only [Config.step, hi, if_true, ht]
    rw [ht] at hthrown hidx
    have hw : w.pc ≠ .thrown := by simpa [Thread.has_thrown] using hthrown
    have hwi : w.holding = true → w.write_index < c.ring.n_buffers := by
      intro hold
      exact hidx _ (by simp [Thread.at_index, hold])
    obtain ⟨e1, e2, e3⟩ := Writer_step_in_range c.ring w hh hw hwi
    refine ⟨by rw [hring]; exact e1, fun j hj => ?_⟩
    by_cases hji : j = i
    · subst hji
      rw [hthr]
      refine ⟨by simpa [Thread.has_thrown] using e2, fun k hk => ?_⟩
      by_cases hold : (Writer.step c.ring w).2.holding = true
      · simp only [Thread.at_index, hold, if_true, Option.some.injEq] at hk
        rw [← hk]
        exact e3 hold
      · simp [Thread.at_index, hold] at hk
    · rw [Config_step_threads_of_ne c hji]
      exact hall j hj
  | reader rd =>
    have hring : (c.step i).ring = (Reader.step c.ring rd).1 := by
      simp only [Config.step, hi, if_true, ht]
    have hthr : (c.step i).threads i = Thread.reader (Reader.step c.ring rd).2 := by
      simp only [Config.step, hi, if_true, ht]
    rw [ht] at hthrown hidx
    have hw : rd.pc ≠ .thrown := by simpa [Thread.has_thrown] using hthrown
    obtain ⟨e1, e2, e3⟩ := Reader_step_in_range c.ring rd hh hw hidx
    refine ⟨by rw [hring]; exact e1, fun j hj => ?_⟩
    by_cases hji : j = i
    · subst hji
      rw [hthr]
      exact ⟨by simpa [Thread.has_thrown] using e2, e3⟩
    · rw [Config_step_threads_of_ne c hji]
      exact hall j hj

theorem Config_run_in_range (c : Config) (sched : List Nat) (h : c.in_range) :
    (c.run sched).in_range := by
  induction sched generalizing c with
  | nil => exact h
  | cons i rest ih => exact ih (c.step i) (Config_step_in_range c i h)

theorem Config_start_in_range {N : Nat} (hN : 0 < N) (S : Nat) (bytes : Nat → List Byte)
    (n : Nat) (calls : Nat → Call) : (Config.start N S bytes n calls).in_range := by
  refine ⟨hN, fun i _ => ?_⟩
  simp only [Config.start]
  cases calls i <;> simp [Call.thread, Thread.has_thrown, Thread.at_index, Writer.holding]


/-- C11: for every `N ≥ 1`, every sequence of `Write` and `Read` calls on a
fresh ring of `N` slots runs to its end without `at` throwing; the cursor
`m_head` lies in `[0, N)` after every call, and so does every index a call
passed to `at`, as do the index `advance_head` would return next and the index
`Read` would compute next.  The same holds when the calls of several threads
are interleaved: along every schedule the cursor stays in `[0, N)`, no thread
leaves `at` with an exception and every index computed for `at` is in
`[0, N)`. -/
theorem at_never_throws (N S : Nat) (bytes : Nat → List Byte) (hN : 1 ≤ N) (ops : List Op) :
    (∃ ress r, run_ops ops (construct N S bytes) = some (ress, r) ∧
      ress.length = ops.length ∧ r.n_buffers = N ∧ r.m_head < N ∧
      (∀ res ∈ ress, res.index < N ∧ res.ring.m_head < N) ∧
      (advance_head r).1 < N ∧ read_index_of N r.m_head < N ∧
      (∀ w : write_callback, ∃ out, Write w r = some out ∧ out.write_index < N) ∧
      (∀ rd : read_callback, ∃ res, Read rd r = some res ∧ res.read_index < N)) ∧
    (∀ (n : Nat) (calls : Nat → Call) (sched : List Nat),
      ((Config.start N S bytes n calls).run sched).in_range) := by
  constructor
  · obtain ⟨ress, r, h1, h2, h3, h4, h5⟩ := run_ops_quiet ops (construct_quiet hN S bytes)
    have hN' : r.n_buffers = N := h4
    have hh : r.m_head < N := by
      have := h3.1
      rwa [hN'] at this
    refine ⟨ress, r, h1, h2, hN', hh, fun res hres => ⟨(h5 res hres).1, (h5 res hres).2.1⟩,
      ?_, read_index_lt hh, fun w => ?_, fun rd => ?_⟩
    · simp only [advance_head, hN']
      exact next_head_lt hh
    · refine ⟨_, Write_eq w r h3.1, ?_⟩
      simp only [Write_result, hN']
      exact next_head_lt hh
    · refine ⟨_, Read_eq rd r h3.1, ?_⟩
      simp only [hN']
      exact read_index_lt hh
  · intro n calls sched
    exact Config_run_in_range _ sched (Config_start_in_range hN S bytes n calls)

/-- Witness of `at_never_throws`: a `Write`, a `Read` and a `Write` on a ring of
2 slots. -/
theorem at_never_throws_witness :
    1 ≤ 2 ∧
    ∃ ress r, run_ops [.write (fill_with [1] 0), .read (fun _ _ _ => 0), .write (fill_with [2] 0)]
        (construct 2 1 (fun _ => [0])) = some (ress, r) ∧
      ress.length = 3 ∧ r.m_head < 2 ∧ ∀ res ∈ ress, res.index < 2 := by
  obtain ⟨ress, r, h1, h2, -, h4, h5, -⟩ :=
    (at_never_throws 2 1 (fun _ => [0]) (by decide)
      [.write (fill_with [1] 0), .read (fun _ _ _ => 0), .write (fill_with [2] 0)]).1
  exact ⟨by decide, ress, r, h1, h2, h4, fun res hres => (h5 res hres).1⟩

/-! ### `Read` lags one `Write` behind -/

theorem next_head_succ {N h : Nat} (h1 : h + 1 < N) (h2 : h + 1 < UINT_RANGE) :
    next_head N h = h + 1 := by
  unfold next_head
  rw [last_index_pos (by omega), if_neg (by omega), Nat.mod_eq_of_lt h2]

theorem read_index_eq {N h : Nat} (hh : h < N) (hN : N ≤ UINT_RANGE) :
    read_index_of N h = if h = 0 then N - 1 else h - 1 := by
  unfold read_index_of
  rw [last_index_pos (by omega)]
  split
  · exact Nat.mod_eq_of_lt (by omega)
  · exact Nat.mod_eq_of_lt (by omega)

theorem head_after_writes (ws : List write_callback) {r : RingBuffer} (h : Quiet r)
    (hs : r.m_seq_num < ULL_RANGE) (hlt : r.m_head + ws.length < r.n_buffers)
    (hu : r.m_head + ws.length < UINT_RANGE) {outs : List WriteResult} {r' : RingBuffer}
    (hw : write_calls ws r = some (outs, r')) : r'.m_head = r.m_head + ws.length := by
  induction ws generalizing r outs with
  | nil =>
    simp only [write_calls, Option.some.injEq, Prod.mk.injEq] at hw
    rw [← hw.2]
    rfl
  | cons w ws ih =>
    have hq := Write_ring_quiet w h
    have hs' : (Write_ring w r).m_seq_num < ULL_RANGE :=
      Nat.mod_lt _ (by norm_num [ULL_RANGE])
    simp only [List.length_cons] at hlt hu
    have hhead : (Write_ring w r).m_head = r.m_head + 1 :=
      next_head_succ (by omega) (by omega)
    obtain ⟨outs', r'', h1, -⟩ := write_calls_quiet ws hq hs'
    have h1' : write_calls ws (Write_result w r).ring = some (outs', r'') := h1
    simp only [write_calls, Write_eq w r h.1, h1', Option.some.injEq, Prod.mk.injEq] at hw
    rw [hw.2] at h1
    have hn : (Write_ring w r).n_buffers = r.n_buffers := rfl
    have := ih hq hs' (by rw [hhead, hn]; omega) (by rw [hhead]; omega) h1
    rw [this, hhead, List.length_cons]
    omega

/-- After two `Write` calls on a quiet ring of `2 ≤ N ≤ 2^32` slots, `Read`
targets the slot of the first of the two. -/
theorem Read_after_two_Writes {r1 : RingBuffer} (hq : Quiet r1) (hN : 2 ≤ r1.n_buffers)
    (hR : r1.n_buffers ≤ UINT_RANGE) (w_prev w_last : write_callback) (rd : read_callback) :
    Read rd (Write_result w_last (Write_result w_prev r1).ring).ring
        = some (Read_result rd (Write_result w_last (Write_result w_prev r1).ring).ring) ∧
      (Read_result rd (Write_result w_last (Write_result w_prev r1).ring).ring).read_index
        = (Write_result w_prev r1).write_index ∧
      (Read_result rd (Write_result w_last (Write_result w_prev r1).ring).ring).seen_data
        = (Write_result w_prev r1).payload ∧
      (Read_result rd (Write_result w_last (Write_result w_prev r1).ring).ring).seen_seq
        = (Write_result w_prev r1).sequence_num ∧
      (Write_result w_last (Write_result w_prev r1).ring).write_index
        ≠ (Write_result w_prev r1).write_index := by
  have hq2 : Quiet (Write_ring w_prev r1) := Write_ring_quiet w_prev hq
  have hq3 : Quiet (Write_ring w_last (Write_ring w_prev r1)) := Write_ring_quiet w_last hq2
  have hlt : next_head r1.n_buffers r1.m_head < r1.n_buffers := next_head_lt hq.1
  have hidx : read_index_of r1.n_buffers (next_head r1.n_buffers (next_head r1.n_buffers r1.m_head))
      = next_head r1.n_buffers r1.m_head := read_index_next_head hlt hR
  have hne : next_head r1.n_buffers (next_head r1.n_buffers r1.m_head)
      ≠ next_head r1.n_buffers r1.m_head := next_head_ne hN hlt
  refine ⟨Read_quiet rd hq3, ?_, ?_, ?_, ?_⟩
  · simp only [Read_result, Write_result, Write_ring, hidx]
  · simp only [Read_result, Write_result, Write_ring, WriteResult.payload, hidx,
      if_neg hne.symm, if_true]
  · simp only [Read_result, Write_result, Write_ring, hidx, if_neg hne.symm, if_true]
  · simp only [Write_result, Write_ring]
    exact hne


theorem write_calls_two_more (N S : Nat) (bytes : Nat → List Byte) (hN : 0 < N)
    (ws : List write_callback) (w_prev w_last : write_callback) :
    ∃ outs r1, write_calls ws (construct N S bytes) = some (outs, r1) ∧
      outs.length = ws.length ∧ Quiet r1 ∧ r1.n_buffers = N ∧ r1.buf_size = S ∧
      r1.m_seq_num = ws.length % ULL_RANGE ∧
      write_calls (ws ++ [w_prev, w_last]) (construct N S bytes)
        = some (outs ++ [Write_result w_prev r1,
                         Write_result w_last (Write_result w_prev r1).ring],
                (Write_result w_last (Write_result w_prev r1).ring).ring) := by
  have hq0 : Quiet (construct N S bytes) := construct_quiet hN S bytes
  have hs0 : (construct N S bytes).m_seq_num < ULL_RANGE := by
    norm_num [construct, ULL_RANGE]
  obtain ⟨outs, r1, h1, h2, h3, h4, h5, h6⟩ := write_calls_quiet ws hq0 hs0
  have hq2 : Quiet (Write_ring w_prev r1) := Write_ring_quiet w_prev h3
  have e1 := write_calls_snoc ws w_prev _ h1 h3.1
  have e2 := write_calls_snoc (ws ++ [w_prev]) w_last _ e1 hq2.1
  refine ⟨outs, r1, h1, h2, h3, h4, h5, ?_, ?_⟩
  · rw [h6]
    simp only [construct, Nat.zero_add]
  · rw [List.append_assoc, List.append_assoc] at e2
    exact e2

/-- C12, as amended: `Write` fills the slot whose index `advance_head` returns
and leaves in `m_head`, and `Read` targets the slot one before the cursor
(`N - 1` when the cursor is 0).  Hence on a fresh ring of `N` slots,
`2 ≤ N ≤ 2^32`, after `k ≥ 2` complete `Write` calls `Read` hands its callback
the payload bytes and the sequence number `(k - 2) mod 2^64` of the `(k-1)`-th
`Write`, the publish before the last one; and after exactly one `Write`, which
fills slot 1, it hands the callback the never-written slot 0 with sequence
number 0. -/
theorem Read_lags_one_Write (N S : Nat) (bytes : Nat → List Byte) (hN : 2 ≤ N)
    (hR : N ≤ UINT_RANGE) (ws : List write_callback) (w_prev w_last : write_callback)
    (rd : read_callback) :
    (∃ outs o_prev o_last r res,
      write_calls (ws ++ [w_prev, w_last]) (construct N S bytes)
        = some (outs ++ [o_prev, o_last], r) ∧
      outs.length = ws.length ∧
      o_last.write_index = r.m_head ∧ o_last.write_index ≠ o_prev.write_index ∧
      Read rd r = some res ∧
      res.read_index = (if r.m_head = 0 then N - 1 else r.m_head - 1) ∧
      res.read_index = o_prev.write_index ∧ res.corrupt = false ∧
      res.seen_data = o_prev.payload ∧ res.seen_seq = o_prev.sequence_num ∧
      o_prev.sequence_num = (ws.length + 2 - 2) % ULL_RANGE) ∧
    (∃ o_last r res,
      write_calls [w_last] (construct N S bytes) = some ([o_last], r) ∧
      o_last.write_index = 1 ∧ r.m_head = 1 ∧
      Read rd r = some res ∧ res.corrupt = false ∧ res.read_index = 0 ∧
      r.m_circular_buffer 0 = Buf.init (bytes 0) ∧
      res.seen_data = bytes 0 ∧ res.seen_seq = 0) := by
  constructor
  · obtain ⟨outs, r1, -, h2, h3, h4, -, h6, h7⟩ :=
      write_calls_two_more N S bytes (by omega) ws w_prev w_last
    obtain ⟨e1, e2, e3, e4, e5⟩ :=
      Read_after_two_Writes h3 (by rw [h4]; exact hN) (by rw [h4]; exact hR) w_prev w_last rd
    have hq3 : Quiet (Write_result w_last (Write_result w_prev r1).ring).ring :=
      Write_ring_quiet w_last (Write_ring_quiet w_prev h3)
    have hn : (Write_result w_last (Write_result w_prev r1).ring).ring.n_buffers = N := h4
    refine ⟨outs, _, _, _, _, h7, h2, rfl, e5, e1, ?_, e2, rfl, e3, e4, ?_⟩
    · have hri :
          (Read_result rd (Write_result w_last (Write_result w_prev r1).ring).ring).read_index
          = read_index_of (Write_result w_last (Write_result w_prev r1).ring).ring.n_buffers
              (Write_result w_last (Write_result w_prev r1).ring).ring.m_head := rfl
      rw [hri, read_index_eq hq3.1 (by rw [hn]; exact hR), hn]
    · rw [Nat.add_sub_cancel]
      exact h6
  · have hq0 : Quiet (construct N S bytes) := construct_quiet (by omega) S bytes
    have hq1 : Quiet (Write_ring w_last (construct N S bytes)) := Write_ring_quiet w_last hq0
    have h10 : next_head N 0 = 1 := next_head_succ (by omega) (by norm_num [UINT_RANGE])
    have hidx : read_index_of N 1 = 0 := by
      rw [read_index_eq (by omega) hR]
      simp
    refine ⟨Write_result w_last (construct N S bytes), _, _, ?_, ?_, ?_, Read_quiet rd hq1,
      rfl, ?_, ?_, ?_, ?_⟩
    · simp only [write_calls, Write_eq w_last _ hq0.1]
      rfl
    · simp only [Write_result, construct, h10]
    · simp only [Write_result, Write_ring, construct, h10]
    · simp only [Read_result, Write_result, Write_ring, construct, h10, hidx]
    · simp only [Write_result, Write_ring, construct, h10]
      simp
    · simp only [Read_result, Write_result, Write_ring, construct, h10, hidx]
      simp [Buf.init]
    · simp only [Read_result, Write_result, Write_ring, construct, h10, hidx]
      simp [Buf.init]

/-- Witness of `Read_lags_one_Write`: the ring of 3 slots of 4 bytes on which
`[1,2,3,4]`, `[5,6,7,8]` and `[9,9,9,9]` are written. -/
theorem Read_lags_one_Write_witness :
    2 ≤ 3 ∧ 3 ≤ UINT_RANGE ∧
    ∃ outs o_prev o_last r res,
      write_calls
          ([fill_with [1, 2, 3, 4] 0] ++ [fill_with [5, 6, 7, 8] 0, fill_with [9, 9, 9, 9] 0])
          (construct 3 4 (fun _ => [0, 0, 0, 0]))
        = some (outs ++ [o_prev, o_last], r) ∧
      Read (fun _ _ _ => 0) r = some res ∧ res.corrupt = false ∧
      res.seen_data = o_prev.payload ∧ res.seen_seq = o_prev.sequence_num ∧
      o_prev.sequence_num = 1 := by
  have hR : 3 ≤ UINT_RANGE := by norm_num [UINT_RANGE]
  obtain ⟨outs, o_prev, o_last, r, res, h1, -, -, -, h5, -, -, h8, h9, h10, h11⟩ :=
    (Read_lags_one_Write 3 4 (fun _ => [0, 0, 0, 0]) (by decide) hR [fill_with [1, 2, 3, 4] 0]
      (fill_with [5, 6, 7, 8] 0) (fill_with [9, 9, 9, 9] 0) (fun _ _ _ => 0)).1
  refine ⟨by decide, hR, outs, o_prev, o_last, r, res, h1, h5, h8, h9, h10, ?_⟩
  rw [h11]
  norm_num [ULL_RANGE]


/-- On a ring of `2^32 + 1` slots the cursor wraps to 0 at the `2^32`-th `Write`
and `Read` then targets slot 0 as well: it delivers the last `Write`. -/
theorem Read_after_cursor_wrap (S : Nat) (bytes : Nat → List Byte) (ws : List write_callback)
    (w_last : write_callback) (rd : read_callback) (hlen : ws.length = 4294967295) :
    ∃ outs o_last r res,
      write_calls (ws ++ [w_last]) (construct 4294967297 S bytes) = some (outs ++ [o_last], r) ∧
      outs.length = ws.length ∧ Read rd r = some res ∧
      res.read_index = o_last.write_index ∧ res.seen_data = o_last.payload ∧
      res.seen_seq = o_last.sequence_num ∧ o_last.sequence_num = 4294967295 := by
  have hq0 : Quiet (construct 4294967297 S bytes) := construct_quiet (by norm_num) S bytes
  have hs0 : (construct 4294967297 S bytes).m_seq_num < ULL_RANGE := by
    norm_num [construct, ULL_RANGE]
  obtain ⟨outs, r1, h1, h2, h3, h4, -, h6⟩ := write_calls_quiet ws hq0 hs0
  have hN : r1.n_buffers = 4294967297 := h4
  have hhead : r1.m_head = 4294967295 := by
    have := head_after_writes ws hq0 hs0 (by rw [hlen]; norm_num [construct])
      (by rw [hlen]; norm_num [construct, UINT_RANGE]) h1
    rw [this, hlen]
    norm_num [construct]
  have hseq : r1.m_seq_num = 4294967295 := by
    rw [h6, hlen]
    norm_num [construct, ULL_RANGE]
  have hnext : next_head 4294967297 4294967295 = 0 := by
    norm_num [next_head, last_index, UINT_RANGE]
  have hidx : read_index_of 4294967297 0 = 0 := by
    norm_num [read_index_of, last_index, UINT_RANGE]
  have hq2 : Quiet (Write_ring w_last r1) := Write_ring_quiet w_last h3
  refine ⟨outs, Write_result w_last r1, _, _, write_calls_snoc ws w_last _ h1 h3.1, h2,
    Read_quiet rd hq2, ?_, ?_, ?_, hseq⟩
  · simp only [Read_result, Write_result, Write_ring, hN, hhead, hnext, hidx]
  · simp only [Read_result, Write_result, Write_ring, WriteResult.payload, hN, hhead, hnext,
      hidx]
  · simp only [Read_result, Write_result, Write_ring, hN, hhead, hnext, hidx, if_true]

/-- After `2^64 + 2` complete `Write` calls the sequence counter has wrapped:
the publish before the last one carries sequence number 0. -/
theorem Read_after_sequence_wrap (S : Nat) (bytes : Nat → List Byte)
    (ws : List write_callback) (w_prev w_last : write_callback) (rd : read_callback)
    (hlen : ws.length = 18446744073709551616) :
    ∃ outs o_prev o_last r res,
      write_calls (ws ++ [w_prev, w_last]) (construct 2 S bytes)
        = some (outs ++ [o_prev, o_last], r) ∧
      outs.length = ws.length ∧ Read rd r = some res ∧
      res.seen_data = o_prev.payload ∧ res.seen_seq = o_prev.sequence_num ∧
      res.seen_seq = 0 := by
  obtain ⟨outs, r1, -, h2, h3, h4, -, h6, h7⟩ :=
    write_calls_two_more 2 S bytes (by norm_num) ws w_prev w_last
  obtain ⟨e1, -, e3, e4, -⟩ :=
    Read_after_two_Writes h3 (by rw [h4]) (by rw [h4]; norm_num [UINT_RANGE]) w_prev w_last rd
  refine ⟨outs, _, _, _, _, h7, h2, e1, e3, e4, ?_⟩
  rw [e4]
  simp only [Write_result]
  rw [h6, hlen]
  norm_num [ULL_RANGE]

/-- C12 fails as stated.  After exactly one `Write` on a fresh ring, `Read`
targets slot 0, not slot `N - 1`: with `N = 3` the `Write` fills slot 1 and
`Read` targets slot 0 (and not slot 2); with `N = 2` slot `N - 1 = 1` is the
slot the `Write` has just filled, while `Read` targets the never-written slot
0.  With `N = 2^32 + 1` slots, after `k = 2^32` writes `Read` hands its callback
the payload and the sequence number `2^32 - 1` of the last `Write`, not those of
the one before.  After `k = 2^64 + 2` writes the sequence number handed to the
callback is 0, not `k - 2`. -/
theorem Read_after_first_Write_targets_slot_0 :
    ((Write (fill_with [1, 2, 3, 4] 0) (construct 3 4 (fun _ => [0, 0, 0, 0]))).bind
        (fun out => (Read (fun _ _ _ => 0) out.ring).map
          (fun res => (out.write_index, res.read_index, res.seen_data, res.seen_seq)))
      = some (1, 0, [0, 0, 0, 0], 0) ∧ (0 : Nat) ≠ 3 - 1) ∧
    ((Write (fill_with [1, 2] 0) (construct 2 2 (fun _ => [0, 0]))).bind
        (fun out => (Read (fun _ _ _ => 0) out.ring).map
          (fun res => (out.write_index, res.read_index, res.seen_data, res.seen_seq)))
      = some (2 - 1, 0, [0, 0], 0)) ∧
    (∃ outs o_last r res,
      write_calls (List.replicate 4294967295 (fill_with [1] 0) ++ [fill_with [2] 0])
          (construct 4294967297 1 (fun _ => [0])) = some (outs ++ [o_last], r) ∧
      outs.length = 4294967295 ∧ Read (fun _ _ _ => 0) r = some res ∧
      res.read_index = o_last.write_index ∧ res.seen_data = o_last.payload ∧
      res.seen_seq = 4294967295 ∧ (4294967295 : Nat) ≠ 4294967296 - 2) ∧
    (∃ outs o_prev o_last r res,
      write_calls (List.replicate 18446744073709551616 (fill_with [1] 0)
            ++ [fill_with [2] 0, fill_with [3] 0])
          (construct 2 1 (fun _ => [0])) = some (outs ++ [o_prev, o_last], r) ∧
      outs.length = 18446744073709551616 ∧ Read (fun _ _ _ => 0) r = some res ∧
      res.seen_seq = 0 ∧ (0 : Nat) ≠ 18446744073709551616 + 2 - 2) := by
  refine ⟨by decide, by decide, ?_, ?_⟩
  · obtain ⟨outs, o_last, r, res, h1, h2, h3, h4, h5, h6, h7⟩ :=
      Read_after_cursor_wrap 1 (fun _ => [0]) (List.replicate 4294967295 (fill_with [1] 0))
        (fill_with [2] 0) (fun _ _ _ => 0) (List.length_replicate _ _)
    rw [List.length_replicate] at h2
    exact ⟨outs, o_last, r, res, h1, h2, h3, h4, h5, h6.trans h7, by norm_num⟩
  · obtain ⟨outs, o_prev, o_last, r, res, h1, h2, h3, -, -, h6⟩ :=
      Read_after_sequence_wrap 1 (fun _ => [0])
        (List.replicate 18446744073709551616 (fill_with [1] 0))
        (fill_with [2] 0) (fill_with [3] 0) (fun _ _ _ => 0) (List.length_replicate _ _)
    rw [List.length_replicate] at h2
    exact ⟨outs, o_prev, o_last, r, res, h1, h2, h3, h6, by norm_num⟩

/-! ### The snapshots `Read` compares -/

theorem Reader_loads (r' : RingBuffer) (t : Reader) :
    (t.pc = .load_head →
      Reader.step r' t =
        (r', { t with read_index := read_index_of r'.n_buffers r'.m_head,
                      pc := if read_index_of r'.n_buffers r'.m_head < r'.n_buffers
                            then .load_active_start else .thrown })) ∧
    (t.pc = .load_active_start →
      Reader.step r' t =
        (r', { t with write_at_start := (r'.m_circular_buffer t.read_index).write_active,
                      pc := .load_ops_start })) ∧
    (t.pc = .load_ops_start →
      Reader.step r' t =
        (r', { t with ops_at_start := (r'.m_circular_buffer t.read_index).num_write_ops,
                      pc := .incr_readers })) ∧
    (t.pc = .load_ops_end →
      Reader.step r' t =
        (r', { t with ops_at_end := (r'.m_circular_buffer t.read_index).num_write_ops,
                      pc := .load_active_end })) ∧
    (t.pc = .load_active_end →
      Reader.step r' t =
        (r', { t with write_at_end := (r'.m_circular_buffer t.read_index).write_active,
                      corrupt := t.write_at_start
                                 || (r'.m_circular_buffer t.read_index).write_active
                                 || (t.ops_at_start != t.ops_at_end),
                      pc := .done })) := by
  rcases t with ⟨pc, ret, ri, ws, os, sq, cp, oe, we, co, rv⟩
  refine ⟨?_, ?_, ?_, ?_, ?_⟩ <;> intro hpc <;> simp only at hpc <;> subst hpc <;> rfl

theorem Reader_keeps_snapshots (r' : RingBuffer) (t : Reader)
    (h : t.pc = .incr_readers ∨ t.pc = .load_seq ∨ (∃ j, t.pc = .copy j) ∨
      t.pc = .decr_readers) :
    (Reader.step r' t).2.read_index = t.read_index ∧
      (Reader.step r' t).2.write_at_start = t.write_at_start ∧
      (Reader.step r' t).2.ops_at_start = t.ops_at_start ∧
      ((Reader.step r' t).2.pc = .load_seq ∨ (∃ j, (Reader.step r' t).2.pc = .copy j) ∨
        (Reader.step r' t).2.pc = .decr_readers ∨ (Reader.step r' t).2.pc = .load_ops_end) := by
  rcases t with ⟨pc, ret, ri, ws, os, sq, cp, oe, we, co, rv⟩
  rcases h with h | h | ⟨j, h⟩ | h <;> simp only at h <;> subst h
  · simp [Reader.step]
  · simp [Reader.step]
  · simp only [Reader.step]
    split <;> simp
  · simp [Reader.step]

theorem Reader_snapshots_decide (r1 r2 r3 r4 : RingBuffer) (t t3 : Reader)
    (ht : t.pc = .load_active_start) (h3 : t3.pc = .load_ops_end)
    (hi : t3.read_index = t.read_index)
    (hw : t3.write_at_start = (Reader.step r2 (Reader.step r1 t).2).2.write_at_start)
    (ho : t3.ops_at_start = (Reader.step r2 (Reader.step r1 t).2).2.ops_at_start) :
    (Reader.step r2 (Reader.step r1 t).2).2.pc = .incr_readers ∧
    (Reader.step r2 (Reader.step r1 t).2).2.read_index = t.read_index ∧
    (Reader.step r4 (Reader.step r3 t3).2).2.pc = .done ∧
    (Reader.step r4 (Reader.step r3 t3).2).2.corrupt =
      ((r1.m_circular_buffer t.read_index).write_active
        || (r4.m_circular_buffer t.read_index).write_active
        || ((r2.m_circular_buffer t.read_index).num_write_ops
              != (r3.m_circular_buffer t.read_index).num_write_ops)) := by
  rcases t with ⟨pc, ret, ri, ws, os, sq, cp, oe, we, co, rv⟩
  rcases t3 with ⟨pc3, ret3, ri3, ws3, os3, sq3, cp3, oe3, we3, co3, rv3⟩
  simp only at ht h3 hi
  subst ht h3 hi
  simp only [Reader.step] at hw ho
  subst hw ho
  exact ⟨rfl, rfl, rfl, rfl⟩


/-- Once a reader has taken its start snapshots, no step of its own changes
the slot it targets or the start snapshots, and it never goes back. -/
theorem Reader_step_after_start (r' : RingBuffer) (t : Reader) (h : 3 ≤ t.pc.stage) :
    t.pc.stage ≤ (Reader.step r' t).2.pc.stage ∧
      (Reader.step r' t).2.read_index = t.read_index ∧
      (Reader.step r' t).2.write_at_start = t.write_at_start ∧
      (Reader.step r' t).2.ops_at_start = t.ops_at_start := by
  rcases t with ⟨pc, ret, ri, ws, os, sq, cp, oe, we, co, rv⟩
  cases pc
  case copy j =>
    simp only [Reader.step]
    split <;> simp [ReadPc.stage]
  all_goals first
    | (simp [ReadPc.stage] at h; done)
    | simp [Reader.step, ReadPc.stage]

theorem Config_step_reader (c : Config) (i : Nat) (hi : i < c.n_threads) (t : Reader)
    (ht : c.threads i = .reader t) :
    (c.step i).ring = (Reader.step c.ring t).1 ∧
      (c.step i).threads i = .reader (Reader.step c.ring t).2 := by
  constructor <;> simp only [Config.step, hi, if_true, ht]

/-- Whatever the threads do, a reader that has taken its start snapshots keeps
the slot it targets and the start snapshots. -/
theorem Config_run_after_start (c : Config) (i : Nat) (t : Reader)
    (ht : c.threads i = .reader t) (h : 3 ≤ t.pc.stage) (sched : List Nat) :
    ∃ t', (c.run sched).threads i = .reader t' ∧ t.pc.stage ≤ t'.pc.stage ∧
      t'.read_index = t.read_index ∧ t'.write_at_start = t.write_at_start ∧
      t'.ops_at_start = t.ops_at_start := by
  induction sched generalizing c t with
  | nil => exact ⟨t, ht, le_refl _, rfl, rfl, rfl⟩
  | cons j rest ih =>
    by_cases hji : j = i
    · subst hji
      by_cases hj : j < c.n_threads
      · obtain ⟨-, hthr⟩ := Config_step_reader c j hj t ht
        obtain ⟨e1, e2, e3, e4⟩ := Reader_step_after_start c.ring t h
        obtain ⟨t', h1, h2, h3, h4, h5⟩ := ih (c.step j) _ hthr (le_trans h e1)
        exact ⟨t', h1, le_trans e1 h2, h3.trans e2, h4.trans e3, h5.trans e4⟩
      · have hc : c.step j = c := by simp [Config.step, hj]
        have := ih (c.step j) t (by rw [hc]; exact ht) h
        exact this
    · have hthr : (c.step j).threads i = .reader t := by
        rw [Config_step_threads_of_ne c (Ne.symm hji)]
        exact ht
      exact ih (c.step j) t hthr h

/-- Steps of other threads leave a thread as it is. -/
theorem Config_run_others (c : Config) (i : Nat) (sched : List Nat)
    (h : ∀ j ∈ sched, j ≠ i) : (c.run sched).threads i = c.threads i := by
  induction sched generalizing c with
  | nil => rfl
  | cons j rest ih =>
    have hj : j ≠ i := h j (List.mem_cons_self _ _)
    have := ih (c.step j) (fun k hk => h k (List.mem_cons_of_mem _ hk))
    rw [Config.run, this, Config_step_threads_of_ne c (Ne.symm hj)]


/-- A complete `Read` by thread `i` in any schedule: other threads run between
its two start loads (`s1`) and between its two end loads (`s3`), and anything
runs in between (`mid`).  The flag it reports is made of the `write_active` of
the targeted slot when the call loads it at the start and at the end, and of
the `num_write_ops` of that slot when the call loads it at the start and at
the end. -/
theorem Read_run_corrupt (c : Config) (i : Nat) (hi : i < c.n_threads) (t : Reader)
    (ht : c.threads i = .reader t) (hpc : t.pc = .load_active_start)
    (s1 mid s3 : List Nat) (h1 : ∀ j ∈ s1, j ≠ i) (h3 : ∀ j ∈ s3, j ≠ i) (t4 : Reader)
    (hmid : ((((c.step i).run s1).step i).run mid).threads i = .reader t4)
    (hpc4 : t4.pc = .load_ops_end) :
    ∃ t7, (((((((c.step i).run s1).step i).run mid).step i).run s3).step i).threads i
        = .reader t7 ∧
      t7.pc = .done ∧ t7.read_index = t.read_index ∧
      t7.write_at_start = (c.ring.m_circular_buffer t.read_index).write_active ∧
      t7.ops_at_start
        = (((c.step i).run s1).ring.m_circular_buffer t.read_index).num_write_ops ∧
      t7.ops_at_end
        = (((((c.step i).run s1).step i).run mid).ring.m_circular_buffer
            t.read_index).num_write_ops ∧
      t7.write_at_end
        = (((((((c.step i).run s1).step i).run mid).step i).run s3).ring.m_circular_buffer
            t.read_index).write_active ∧
      t7.corrupt = (t7.write_at_start || t7.write_at_end
                     || (t7.ops_at_start != t7.ops_at_end)) := by
  -- the load of `write_active` at the start
  obtain ⟨-, hthr1⟩ := Config_step_reader c i hi t ht
  rw [((Reader_loads c.ring t).2.1 hpc)] at hthr1
  -- other threads
  have hthr2 := (Config_run_others (c.step i) i s1 h1).trans hthr1
  have hn2 : i < ((c.step i).run s1).n_threads := by
    rw [(Config_run_shape _ _).2, Config_step_n_threads]; exact hi
  -- the load of `num_write_ops` at the start
  obtain ⟨-, hthr3⟩ := Config_step_reader _ i hn2 _ hthr2
  rw [((Reader_loads _ _).2.2.1 rfl)] at hthr3
  -- anything, up to the load of `num_write_ops` at the end
  obtain ⟨t4', e1, -, e3, e4, e5⟩ :=
    Config_run_after_start _ i _ hthr3 (by simp [ReadPc.stage]) mid
  have e4eq : t4' = t4 := by
    rw [e1] at hmid
    exact Thread.reader.inj hmid
  subst e4eq
  have hn4 : i < ((((c.step i).run s1).step i).run mid).n_threads := by
    rw [(Config_run_shape _ _).2, Config_step_n_threads, (Config_run_shape _ _).2,
      Config_step_n_threads]
    exact hi
  obtain ⟨-, hthr5⟩ := Config_step_reader _ i hn4 _ hmid
  rw [((Reader_loads _ _).2.2.2.1 hpc4)] at hthr5
  -- other threads
  have hthr6 := (Config_run_others _ i s3 h3).trans hthr5
  have hn6 : i < ((((((c.step i).run s1).step i).run mid).step i).run s3).n_threads := by
    rw [(Config_run_shape _ _).2, Config_step_n_threads]
    exact hn4
  -- the load of `write_active` at the end
  obtain ⟨-, hthr7⟩ := Config_step_reader _ i hn6 _ hthr6
  rw [((Reader_loads _ _).2.2.2.2 rfl)] at hthr7
  refine ⟨_, hthr7, rfl, ?_, ?_, ?_, ?_, ?_, rfl⟩
  · exact e3
  · exact e4
  · exact e5
  · simp only [e3]
  · simp only [e3]


theorem Config_run_append (c : Config) (s1 s2 : List Nat) :
    c.run (s1 ++ s2) = (c.run s1).run s2 := by
  induction s1 generalizing c with
  | nil => rfl
  | cons i rest ih => exact ih (c.step i)

/-- A complete `Read` by thread `i`, from its load of the cursor on, in any
schedule of the shape `i, s0, i, s1, i, mid, i, s3, i`, where `s0`, `s1` and `s3`
hold steps of other threads only and `mid` holds anything that brings thread `i`
to its load of `num_write_ops` at the end. -/
theorem Read_run_snapshots (c : Config) (i : Nat) (t t6 : Reader) (s0 s1 mid s3 : List Nat)
    (hi : i < c.n_threads) (ht : c.threads i = .reader t) (hpc : t.pc = .load_head)
    (hidx : read_index_of c.ring.n_buffers c.ring.m_head < c.ring.n_buffers)
    (h0 : ∀ j ∈ s0, j ≠ i) (h1 : ∀ j ∈ s1, j ≠ i) (h3 : ∀ j ∈ s3, j ≠ i)
    (hmid : (c.run (i :: s0 ++ i :: s1 ++ i :: mid)).threads i = .reader t6)
    (hpc6 : t6.pc = .load_ops_end) :
    ∃ t9, (c.run (i :: s0 ++ i :: s1 ++ i :: mid ++ i :: s3 ++ [i])).threads i = .reader t9 ∧
      t9.pc = .done ∧
      t9.read_index = read_index_of c.ring.n_buffers c.ring.m_head ∧
      t9.write_at_start
        = ((c.run (i :: s0)).ring.m_circular_buffer t9.read_index).write_active ∧
      t9.ops_at_start
        = ((c.run (i :: s0 ++ i :: s1)).ring.m_circular_buffer t9.read_index).num_write_ops ∧
      t9.ops_at_end
        = ((c.run (i :: s0 ++ i :: s1 ++ i :: mid)).ring.m_circular_buffer
            t9.read_index).num_write_ops ∧
      t9.write_at_end
        = ((c.run (i :: s0 ++ i :: s1 ++ i :: mid ++ i :: s3)).ring.m_circular_buffer
            t9.read_index).write_active ∧
      t9.corrupt = (t9.write_at_start || t9.write_at_end
                     || (t9.ops_at_start != t9.ops_at_end)) := by
  -- the load of the cursor, then other threads
  obtain ⟨-, hthr0⟩ := Config_step_reader c i hi t ht
  rw [((Reader_loads c.ring t).1 hpc), if_pos hidx] at hthr0
  have hthr1 := (Config_run_others (c.step i) i s0 h0).trans hthr0
  have hn1 : i < ((c.step i).run s0).n_threads := by
    rw [(Config_run_shape _ _).2, Config_step_n_threads]; exact hi
  have ea : c.run (i :: s0) = (c.step i).run s0 := rfl
  have eb : c.run (i :: s0 ++ i :: s1) = (((c.step i).run s0).step i).run s1 := by
    rw [Config_run_append]; rfl
  have ec : c.run (i :: s0 ++ i :: s1 ++ i :: mid)
      = (((((c.step i).run s0).step i).run s1).step i).run mid := by
    rw [Config_run_append, eb]; rfl
  have ed : c.run (i :: s0 ++ i :: s1 ++ i :: mid ++ i :: s3)
      = (((((((c.step i).run s0).step i).run s1).step i).run mid).step i).run s3 := by
    rw [Config_run_append, ec]; rfl
  have ee : c.run (i :: s0 ++ i :: s1 ++ i :: mid ++ i :: s3 ++ [i])
      = ((((((((c.step i).run s0).step i).run s1).step i).run mid).step i).run s3).step i := by
    rw [Config_run_append, ed]; rfl
  rw [ec] at hmid
  rw [ea, eb, ec, ed, ee]
  obtain ⟨t9, e1, e2, e3, e4, e5, e6, e7, e8⟩ :=
    Read_run_corrupt ((c.step i).run s0) i hn1 _ hthr1 rfl s1 mid s3 h1 h3 t6 hmid hpc6
  have e3' : t9.read_index = read_index_of c.ring.n_buffers c.ring.m_head := e3
  refine ⟨t9, e1, e2, e3', ?_, ?_, ?_, ?_, e8⟩
  · rw [e4, e3]
  · rw [e5, e3]
  · rw [e6, e3]
  · rw [e7, e3]

/-- C3: `Read` assigns to `corrupt` exactly `write_at_start || write_at_end ||
(ops_at_start != ops_at_end)`, where the four snapshots are the `write_active`
flag and the `num_write_ops` counter of the slot it targets, loaded before and
after the callback.

* With no other thread on the ring, `Read` returns, the four snapshots are the
  two fields of the targeted slot before and after the callback, and `corrupt`
  is the expression above; hence on every ring state whose targeted slot is
  marked `write_active`, `Read` reports `corrupt = true`, whatever the callback
  is.
* Operation by operation: the load of the cursor fixes the targeted slot, each
  of the four loads stores what that slot holds at the moment of the load, and
  the last one assigns the expression to `corrupt`; an operation past the start
  loads keeps the index and the two start snapshots.
* In every schedule `i, s0, i, s1, i, mid, i, s3, i` in which thread `i` runs a
  whole `Read` (`s0`, `s1`, `s3` are steps of other threads, `mid` is anything
  that brings thread `i` to its second load of `num_write_ops`), the thread ends
  with `corrupt` equal to the expression, of the `write_active` the targeted
  slot holds after `i, s0` and after `i, s0, i, s1, i, mid, i, s3`, and of the
  `num_write_ops` it holds after `i, s0, i, s1` and after `i, s0, i, s1, i, mid`;
  hence `corrupt` is true when the slot is marked `write_active` at the first
  of these loads.
* In `lapped_read_schedule` a whole `Write` into the targeted slot runs between
  the two loads of `num_write_ops`: `write_active` is false at both loads, the
  counter is 2 and then 4, and `corrupt` is true. -/
theorem Read_corrupt_formula (rd : read_callback) (r : RingBuffer)
    (h : r.m_head < r.n_buffers) :
    (∃ res, Read rd r = some res ∧
      res.read_index = read_index_of r.n_buffers r.m_head ∧
      res.corrupt = (res.write_at_start || res.write_at_end
                      || (res.ops_at_start != res.ops_at_end)) ∧
      res.write_at_start = (r.m_circular_buffer res.read_index).write_active ∧
      res.ops_at_start = (r.m_circular_buffer res.read_index).num_write_ops ∧
      res.ops_at_end = (res.ring.m_circular_buffer res.read_index).num_write_ops ∧
      res.write_at_end = (res.ring.m_circular_buffer res.read_index).write_active ∧
      ((r.m_circular_buffer (read_index_of r.n_buffers r.m_head)).write_active = true →
        res.corrupt = true)) ∧
    (∀ (r' : RingBuffer) (t : Reader),
      (t.pc = .load_head →
        Reader.step r' t =
          (r', { t with read_index := read_index_of r'.n_buffers r'.m_head,
                        pc := if read_index_of r'.n_buffers r'.m_head < r'.n_buffers
                              then .load_active_start else .thrown })) ∧
      (t.pc = .load_active_start →
        Reader.step r' t =
          (r', { t with write_at_start := (r'.m_circular_buffer t.read_index).write_active,
                        pc := .load_ops_start })) ∧
      (t.pc = .load_ops_start →
        Reader.step r' t =
          (r', { t with ops_at_start := (r'.m_circular_buffer t.read_index).num_write_ops,
                        pc := .incr_readers })) ∧
      (t.pc = .load_ops_end →
        Reader.step r' t =
          (r', { t with ops_at_end := (r'.m_circular_buffer t.read_index).num_write_ops,
                        pc := .load_active_end })) ∧
      (t.pc = .load_active_end →
        Reader.step r' t =
          (r', { t with write_at_end := (r'.m_circular_buffer t.read_index).write_active,
                        corrupt := t.write_at_start
                                   || (r'.m_circular_buffer t.read_index).write_active
                                   || (t.ops_at_start != t.ops_at_end),
                        pc := .done })) ∧
      (t.pc = .load_active_end →
        (Reader.step r' t).2.corrupt =
          (t.write_at_start || (r'.m_circular_buffer t.read_index).write_active
            || (t.ops_at_start != t.ops_at_end))) ∧
      (3 ≤ t.pc.stage →
        t.pc.stage ≤ (Reader.step r' t).2.pc.stage ∧
        (Reader.step r' t).2.read_index = t.read_index ∧
        (Reader.step r' t).2.write_at_start = t.write_at_start ∧
        (Reader.step r' t).2.ops_at_start = t.ops_at_start)) ∧
    (∀ (c : Config) (i : Nat) (t t6 : Reader) (s0 s1 mid s3 : List Nat),
      i < c.n_threads → c.threads i = .reader t → t.pc = .load_head →
      read_index_of c.ring.n_buffers c.ring.m_head < c.ring.n_buffers →
      (∀ j ∈ s0, j ≠ i) → (∀ j ∈ s1, j ≠ i) → (∀ j ∈ s3, j ≠ i) →
      (c.run (i :: s0 ++ i :: s1 ++ i :: mid)).threads i = .reader t6 →
      t6.pc = .load_ops_end →
      ∃ t9, (c.run (i :: s0 ++ i :: s1 ++ i :: mid ++ i :: s3 ++ [i])).threads i
          = .reader t9 ∧
        t9.pc = .done ∧
        t9.read_index = read_index_of c.ring.n_buffers c.ring.m_head ∧
        t9.write_at_start
          = ((c.run (i :: s0)).ring.m_circular_buffer t9.read_index).write_active ∧
        t9.ops_at_start
          = ((c.run (i :: s0 ++ i :: s1)).ring.m_circular_buffer
              t9.read_index).num_write_ops ∧
        t9.ops_at_end
          = ((c.run (i :: s0 ++ i :: s1 ++ i :: mid)).ring.m_circular_buffer
              t9.read_index).num_write_ops ∧
        t9.write_at_end
          = ((c.run (i :: s0 ++ i :: s1 ++ i :: mid ++ i :: s3)).ring.m_circular_buffer
              t9.read_index).write_active ∧
        t9.corrupt = (t9.write_at_start || t9.write_at_end
                       || (t9.ops_at_start != t9.ops_at_end)) ∧
        (((c.run (i :: s0)).ring.m_circular_buffer t9.read_index).write_active = true →
          t9.corrupt = true)) ∧
    (torn_read_start.run lapped_read_schedule).threads 3
      = .reader { pc := .done, ret := 0, read_index := 1, write_at_start := false,
                  ops_at_start := 2, seen_seq := 2, copied := [5, 6], ops_at_end := 4,
                  write_at_end := false, corrupt := true, retval := 0 } := by
  refine ⟨?_, ?_, ?_, by decide⟩
  · have h' := read_index_lt h
    simp only [Read, slot_at, h', if_true]
    refine ⟨_, rfl, rfl, rfl, rfl, rfl, rfl, rfl, fun hw => ?_⟩
    simp only [hw, Bool.true_or]
  · intro r' t
    obtain ⟨l1, l2, l3, l4, l5⟩ := Reader_loads r' t
    refine ⟨l1, l2, l3, l4, l5, fun hpc => ?_, Reader_step_after_start r' t⟩
    rw [l5 hpc]
  · intro c i t t6 s0 s1 mid s3 hi ht hpc hidx h0 h1 h3 hmid hpc6
    obtain ⟨t9, e1, e2, e3, e4, e5, e6, e7, e8⟩ :=
      Read_run_snapshots c i t t6 s0 s1 mid s3 hi ht hpc hidx h0 h1 h3 hmid hpc6
    refine ⟨t9, e1, e2, e3, e4, e5, e6, e7, e8, fun hw => ?_⟩
    rw [e8, e4, hw, Bool.true_or, Bool.true_or]

/-- Witness of `Read_corrupt_formula`.  Two threads are paused inside their write
callbacks on a ring of 2 slots: `Read` targets slot 1, which is marked
`write_active`, and reports `corrupt = true`.  In the lapped-read example the
schedule has the shape of the theorem with `mid` the whole third `Write`
followed by the callback of the `Read`: the thread loads `write_active = false`
twice and `num_write_ops` 2 and then 4 from slot 1, and ends with
`corrupt = true`. -/
theorem Read_corrupt_formula_witness :
    both_writers_paused.m_head < both_writers_paused.n_buffers ∧
    (both_writers_paused.m_circular_buffer
      (read_index_of both_writers_paused.n_buffers both_writers_paused.m_head)).write_active
        = true ∧
    (∃ res, Read (fun _ _ _ => 7) both_writers_paused = some res ∧ res.read_index = 1 ∧
      res.corrupt = true) ∧
    ∃ t9, ((torn_read_start.run torn_read_history).run
          (3 :: [] ++ 3 :: [] ++ 3 :: (List.replicate 11 2 ++ List.replicate 6 3)
            ++ 3 :: [] ++ [3])).threads 3 = .reader t9 ∧
      t9.pc = .done ∧ t9.read_index = 1 ∧ t9.write_at_start = false ∧ t9.ops_at_start = 2 ∧
      t9.ops_at_end = 4 ∧ t9.write_at_end = false ∧ t9.corrupt = true := by
  obtain ⟨⟨res, h1, h2, _, _, _, _, _, h8⟩, _, hrun, _⟩ :=
    Read_corrupt_formula (fun _ _ _ => 7) both_writers_paused (by decide)
  obtain ⟨t9, e1, e2, e3, e4, e5, e6, e7, e8, _⟩ :=
    hrun (torn_read_start.run torn_read_history) 3
      { pc := .load_head, ret := 0, read_index := 0, write_at_start := false,
        ops_at_start := 0, seen_seq := 0, copied := [], ops_at_end := 0,
        write_at_end := false, corrupt := false, retval := 0 }
      { pc := .load_ops_end, ret := 0, read_index := 1, write_at_start := false,
        ops_at_start := 2, seen_seq := 2, copied := [5, 6], ops_at_end := 0,
        write_at_end := false, corrupt := false, retval := 0 }
      [] [] (List.replicate 11 2 ++ List.replicate 6 3) []
      (by decide) (by decide) rfl (by decide) (by decide) (by decide) (by decide)
      (by decide) rfl
  have e3' : t9.read_index = 1 := by rw [e3]; decide
  rw [e3'] at e4 e5 e6 e7
  have e4' : t9.write_at_start = false := by rw [e4]; decide
  have e5' : t9.ops_at_start = 2 := by rw [e5]; decide
  have e6' : t9.ops_at_end = 4 := by rw [e6]; decide
  have e7' : t9.write_at_end = false := by rw [e7]; decide
  refine ⟨by decide, by decide, ⟨res, h1, by rw [h2]; decide, h8 (by decide)⟩,
    t9, e1, e2, e3', e4', e5', e6', e7', ?_⟩
  rw [e8, e4', e5', e6', e7']
  decide

end RingBuffer

/-! ## Properties of the file-status tool -/

namespace CheckFile

set_option maxRecDepth 100000

theorem main_tail_of_status {status : String → Option file_type} {argc : Int}
    {file_name : String} (h : ¬ argc > 3) :
    main_tail status argc file_name =
      (status file_name).map (fun s =>
        { retval := EXIT_SUCCESS, out := check_status file_name s,
          check_status_calls := [(file_name, s)] }) := by
  simp only [main_tail, if_neg h]
  cases status file_name <;> rfl

/-- C13, as amended: `main` returns -1 without calling `check_status` exactly
when `argc < 2` or `argc > 3`.  For `argc == 2` it evaluates `fs::status` on
`argv[1]` and, when that returns, calls `check_status` on `argv[1]` and returns
`EXIT_SUCCESS`; for `argc == 3` it writes no error text, evaluates `fs::status`
on the empty path and, when that returns, calls `check_status` on the empty
path and returns `EXIT_SUCCESS`.  When `fs::status` throws, `main` is left by
the exception: it neither calls `check_status` nor returns.  Whenever `main`
returns, it returns -1 or it returns `EXIT_SUCCESS` after one call of
`check_status`. -/
theorem main_argument_count (status : String → Option file_type) (argc : Int)
    (argv : Nat → String) :
    ((∃ r, main status argc argv = some r ∧ r.retval = -1 ∧ r.check_status_calls = [])
      ↔ (argc < 2 ∨ argc > 3)) ∧
    (∀ s, status (argv 1) = some s →
      main status 2 argv =
        some { retval := EXIT_SUCCESS, out := check_status (argv 1) s,
               check_status_calls := [(argv 1, s)] }) ∧
    (status (argv 1) = none → main status 2 argv = none) ∧
    (∀ s, status "" = some s →
      main status 3 argv =
        some { retval := EXIT_SUCCESS, out := check_status "" s,
               check_status_calls := [("", s)] }) ∧
    (status "" = none → main status 3 argv = none) ∧
    (∀ r, main status argc argv = some r →
      r.retval = -1 ∨ (r.retval = EXIT_SUCCESS ∧ r.check_status_calls.length = 1)) := by
  have h2 : main status 2 argv = main_tail status 2 (argv 1) := by
    unfold main
    rw [if_pos (by decide)]
  have h3 : main status 3 argv = main_tail status 3 "" := by
    unfold main
    rw [if_neg (by decide), if_neg (by decide)]
  have hmid : ¬ argc < 2 → ¬ argc > 3 →
      ∃ name, main status argc argv =
        (status name).map (fun s =>
          { retval := EXIT_SUCCESS, out := check_status name s,
            check_status_calls := [(name, s)] }) := by
    intro ha hb
    unfold main
    by_cases h12 : argc > 1 ∧ argc < 3
    · exact ⟨argv 1, by rw [if_pos h12, main_tail_of_status hb]⟩
    · exact ⟨"", by rw [if_neg h12, if_neg ha, main_tail_of_status hb]⟩
  refine ⟨⟨?_, ?_⟩, ?_, ?_, ?_, ?_, ?_⟩
  · rintro ⟨r, hr, -, hcalls⟩
    by_contra hc
    obtain ⟨name, hname⟩ := hmid (fun h' => hc (Or.inl h')) (fun h' => hc (Or.inr h'))
    rw [hname] at hr
    cases hs : status name with
    | none => simp [hs] at hr
    | some s =>
      simp only [hs, Option.map_some', Option.some.injEq] at hr
      rw [← hr] at hcalls
      simp at hcalls
  · intro h
    unfold main
    rcases h with h | h
    · rw [if_neg (by omega), if_pos h]
      exact ⟨_, rfl, rfl, rfl⟩
    · rw [if_neg (by omega), if_neg (by omega)]
      simp only [main_tail, if_pos h]
      exact ⟨_, rfl, rfl, rfl⟩
  · intro s hs
    rw [h2, main_tail_of_status (by decide), hs]
    rfl
  · intro hs
    rw [h2, main_tail_of_status (by decide), hs]
    rfl
  · intro s hs
    rw [h3, main_tail_of_status (by decide), hs]
    rfl
  · intro hs
    rw [h3, main_tail_of_status (by decide), hs]
    rfl
  · intro r hr
    by_cases ha : argc < 2
    · left
      unfold main at hr
      rw [if_neg (by omega), if_pos ha] at hr
      cases hr
      rfl
    · by_cases hb : argc > 3
      · left
        unfold main at hr
        rw [if_neg (by omega), if_neg ha] at hr
        simp only [main_tail, if_pos hb] at hr
        cases hr
        rfl
      · right
        obtain ⟨name, hname⟩ := hmid ha hb
        rw [hname] at hr
        cases hs : status name with
        | none => simp [hs] at hr
        | some s =>
          simp only [hs, Option.map_some', Option.some.injEq] at hr
          rw [← hr]
          exact ⟨rfl, rfl⟩

/-- Witness of `main_argument_count`: on `small_fs`, `main` with the one
argument `/tmp` calls `check_status` on it and returns `EXIT_SUCCESS`; with two
arguments it calls `check_status` on the empty path and returns
`EXIT_SUCCESS`. -/
theorem main_argument_count_witness :
    small_fs "/tmp" = some .directory ∧ small_fs "" = some .not_found ∧
    main small_fs 2 (fun i => if i = 1 then "/tmp" else "check-file") =
      some { retval := 0, out := "\"/tmp\" is a directory\n",
             check_status_calls := [("/tmp", .directory)] } ∧
    main small_fs 3 (fun i => if i = 1 then "/tmp" else "check-file") =
      some { retval := 0, out := "\"\" does not exist\n",
             check_status_calls := [("", .not_found)] } := by
  have h := main_argument_count small_fs 2 (fun i => if i = 1 then "/tmp" else "check-file")
  refine ⟨by decide, by decide, ?_, ?_⟩
  · rw [h.2.1 .directory (by decide)]
    decide
  · rw [h.2.2.2.1 .not_found (by decide)]
    decide

/-- C13 fails as stated: on `small_fs`, `main` with `argc == 2` and a name of
300 letters as `argv[1]` is left by the exception of `fs::status`: it does not
call `check_status` and does not return `EXIT_SUCCESS`. -/
theorem main_aborts_when_status_throws :
    long_name.length = 300 ∧ small_fs long_name = none ∧
    main small_fs 2 (fun i => if i = 1 then long_name else "check-file") = none ∧
    main small_fs 2 (fun i => if i = 1 then long_name else "check-file") ≠
      some { retval := EXIT_SUCCESS, out := check_status long_name .not_found,
             check_status_calls := [(long_name, .not_found)] } := by
  decide

end CheckFile
